import Mathlib

/-! Shallow embedding of the ether_ip EtherNet/IP driver core
(ether_ipApp/src/ether_ip.c and ether_ipApp/src/drvEtherIP.c) together with
proofs about its request packing, tag parsing and scan-worker bookkeeping. -/

namespace EtherIP

/-! ## Byte memory model

The C code assembles requests by writing bytes through CN_USINT pointers.
Memory is modelled as a total function from byte addresses to byte values;
a store keeps only the low 8 bit, as a CN_USINT assignment does. -/

def Mem : Type := Nat → Nat

def memUpd (m : Mem) (a v : Nat) : Mem := fun x => if x = a then v % 256 else m x

/-- pack_USINT from ether_ip.c: store one byte. -/
def pack_USINT (m : Mem) (a v : Nat) : Mem := memUpd m a v

/-- pack_UINT from ether_ip.c: store a 16-bit value as two little-endian bytes,
val AND 0xFF first, then (val AND 0xFF00) shifted right by 8. -/
def pack_UINT (m : Mem) (a v : Nat) : Mem :=
  memUpd (memUpd m a (v % 256)) (a + 1) (v / 256 % 256)

/-- unpack_UINT from ether_ip.c: buffer[0] OR buffer[1] shifted left by 8.
The mod 256 models the CN_USINT type of the buffer cells. -/
def unpack_UINT (m : Mem) (a : Nat) : Nat := m a % 256 + 256 * (m (a + 1) % 256)

/-- Modelled from the spec: the CIP class codes come from ether_ip.h, which is
not among the sources; the spec gives MessageRouter class 0x02 and
ConnectionManager class 0x06. -/
def C_MessageRouter : Nat := 0x02

/-- Modelled from the spec: ConnectionManager class code (ether_ip.h is not
among the sources). -/
def C_ConnectionManager : Nat := 0x06

/-- Modelled from the spec: service code CIP_MultiRequest 0x0A (ether_ip.h is
not among the sources). -/
def S_CIP_MultiRequest : Nat := 0x0A

/-- Modelled from the spec: service code CM_Unconnected_Send 0x52 (ether_ip.h
is not among the sources). -/
def S_CM_Unconnected_Send : Nat := 0x52

/-- CIA_path_size from ether_ip.c, in 16-bit words: 3 with an attribute,
otherwise 2 (class and instance arguments are unused in the source). -/
def CIA_path_size (_cls _inst attr : Nat) : Nat := if attr ≠ 0 then 3 else 2

/-- MR_Request_size from ether_ip.c, in bytes: service and path_size octets
plus the path. -/
def MR_Request_size (path_size : Nat) : Nat := 2 * 1 + path_size * 2

/-- CIP_MultiRequest_size from ether_ip.c: service and path_size, the
MessageRouter path in bytes, the count field, one offset field per request,
and the requests themselves. -/
def CIP_MultiRequest_size (count requests_size : Nat) : Nat :=
  2 + CIA_path_size C_MessageRouter 1 0 * 2 + 2 + 2 * count + requests_size

/-- CIP_MultiResponse_size from ether_ip.c: the 4-byte MR response header,
the count field, one offset field per response, and the responses. -/
def CIP_MultiResponse_size (count responses_size : Nat) : Nat :=
  4 + 2 + 2 * count + responses_size

/-! ## Connection Manager: tick time and CM_Unconnected_Send (ether_ip.c) -/

/-- Loop of calc_tick_time from ether_ip.c: halve millisec until it fits one
byte, counting the shifts. The structural fuel bounds the number of
halvings; calc_tick_time passes millisec itself, which always suffices, so
the loop ends exactly when millisec is at most 0xFF, as in the C. -/
def tick_loop (fuel millisec tick_time : Nat) : Nat × Nat :=
  match fuel with
  | 0 => (tick_time, millisec)
  | fuel + 1 =>
    if millisec > 0xFF then tick_loop fuel (millisec / 2) (tick_time + 1)
    else (tick_time, millisec)

/-- calc_tick_time from ether_ip.c: fails above 8355840 ms, otherwise splits
the budget into a power-of-two tick time and a tick count of at most 255. -/
def calc_tick_time (millisec : Nat) : Option (Nat × Nat) :=
  if millisec > 8355840 then none else some (tick_loop millisec millisec 0)

/-- port_path_size from ether_ip.c: one word, for ports 0..14. -/
def port_path_size (_port _link : Nat) : Nat := 1

/-- make_port_path from ether_ip.c: two bytes, port then link. -/
def make_port_path (m : Mem) (a port link : Nat) : Mem :=
  memUpd (memUpd m a port) (a + 1) link

/-- make_MR_Request from ether_ip.c: pack service and path_size octets (the C
returns the position after them, here always a + 2). -/
def make_MR_Request (m : Mem) (a service path_size : Nat) : Mem :=
  pack_USINT (pack_USINT m a service) (a + 1) path_size

/-- make_CIA_path from ether_ip.c: 0x20 class, 0x24 instance, and 0x30
attribute when the attribute is nonzero. -/
def make_CIA_path (m : Mem) (a cls inst attr : Nat) : Mem :=
  let m1 := memUpd (memUpd (memUpd (memUpd m a 0x20) (a + 1) cls) (a + 2) 0x24)
    (a + 3) inst
  if attr ≠ 0 then memUpd (memUpd m1 (a + 4) 0x30) (a + 5) attr else m1

/-- CM_Unconnected_Send_size from ether_ip.c: the MR request with the
ConnectionManager path, priority/tick and timeout-ticks bytes, the message
size field, the padded message, and 4 bytes of path to the PLC. -/
def CM_Unconnected_Send_size (message_size : Nat) : Nat :=
  MR_Request_size (CIA_path_size C_ConnectionManager 1 0)
    + 1 + 1 + 2 + message_size + message_size % 2 + 4

/-- make_CM_Unconnected_Send from ether_ip.c: an MR request to the
ConnectionManager (class 0x06, instance 1) carrying the priority/tick and
ticks bytes from calc_tick_time on 245760 ms, the inner message size as
UINT, a gap for the nested request (padded to even length), then the
port-path word count 1, a reserved 0, and the port path: port 1, link 0.
Returns the nested request position and the written memory. -/
def make_CM_Unconnected_Send (m : Mem) (a message_size : Nat) : Nat × Mem :=
  let tt := (calc_tick_time 245760).getD (0, 0)
  let m1 := make_MR_Request m a S_CM_Unconnected_Send
    (CIA_path_size C_ConnectionManager 1 0)
  let m2 := make_CIA_path m1 (a + 2) C_ConnectionManager 1 0
  let m3 := pack_USINT m2 (a + 6) tt.1
  let m4 := pack_USINT m3 (a + 7) tt.2
  let m5 := pack_UINT m4 (a + 8) message_size
  let nested := a + 10
  let after := nested + message_size + message_size % 2
  let m6 := pack_USINT m5 after (port_path_size 1 0)
  let m7 := pack_USINT m6 (after + 1) 0
  let m8 := make_port_path m7 (after + 2) 1 0
  (nested, m8)

/-! ## Tag paths (ether_ip.c) -/

/-- One node of the ParsedTag list of ether_ip.h: a symbolic name segment
(its byte values) or an array element index (a CN_UDINT in the C; bounds are
tracked as hypotheses here). -/
inductive TagSeg where
  | name (s : List Nat)
  | element (e : Nat)
deriving DecidableEq

/-- ParsedTag from ether_ip.c: the linked list of segments. -/
abbrev ParsedTag := List TagSeg

/-- Byte count of the wire path, the running total inside tag_path_size from
ether_ip.c: a name takes 0x91, the length byte, the characters and a pad
when the length is odd; an element takes 2, 4 or 6 bytes by magnitude. -/
def tag_path_bytes : ParsedTag → Nat
  | [] => 0
  | TagSeg.name s :: rest => 2 + s.length + s.length % 2 + tag_path_bytes rest
  | TagSeg.element e :: rest =>
    (if e ≤ 0xFF then 2 else if e ≤ 0xFFFF then 4 else 6) + tag_path_bytes rest

/-- tag_path_size from ether_ip.c: the path size in 16-bit words, bytes / 2. -/
def tag_path_size (tag : ParsedTag) : Nat := tag_path_bytes tag / 2

/-- make_tag_path from ether_ip.c, as the list of bytes written in order:
0x91, the length byte (a CN_USINT store of slen), the name bytes and a zero
pad for odd lengths; 0x28 and the element byte, or 0x29 0x00 and two
little-endian bytes, or 0x2A 0x00 and four little-endian bytes - the C
mask-and-shift byte extractions rendered as division and mod 256. -/
def make_tag_path : ParsedTag → List Nat
  | [] => []
  | TagSeg.name s :: rest =>
    0x91 :: s.length % 256 :: s
      ++ (if s.length % 2 = 1 then [0] else []) ++ make_tag_path rest
  | TagSeg.element e :: rest =>
    (if e ≤ 0xFF then [0x28, e % 256]
     else if e ≤ 0xFFFF then [0x29, 0x00, e % 256, e / 256 % 256]
     else [0x2A, 0x00, e % 256, e / 256 % 256, e / 65536 % 256,
       e / 16777216 % 256]) ++ make_tag_path rest

/-- strcspn(tag, ".[") from the parse loop of ether_ip.c: the length of the
prefix free of 46 (the dot) and 91 (the opening bracket). -/
def strcspn_dot_bracket : List Nat → Nat
  | [] => 0
  | c :: r => if c = 46 ∨ c = 91 then 0 else strcspn_dot_bracket r + 1

/-- strchr(tag, 0x5D) followed by the increment in EIP_parse_tag: the suffix
after the first 93 (the closing bracket), none when there is none. -/
def after_rbracket : List Nat → Option (List Nat)
  | [] => none
  | c :: r => if c = 93 then some r else after_rbracket r

/-- Digit-accumulating core of atol. -/
def atol_digits : List Nat → Nat → Nat
  | [], acc => acc
  | c :: r, acc =>
    if 48 ≤ c ∧ c ≤ 57 then atol_digits r (acc * 10 + (c - 48)) else acc

/-- isspace, as atol consults it. -/
def is_space_char (c : Nat) : Bool := decide (c = 32 ∨ (9 ≤ c ∧ c ≤ 13))

/-- The C library atol: skip spaces, an optional sign, then digits. -/
def atol (s : List Nat) : Int :=
  match s.dropWhile is_space_char with
  | [] => 0
  | c :: r =>
    if c = 45 then -(atol_digits r 0 : Int)
    else if c = 43 then (atol_digits r 0 : Int)
    else (atol_digits (c :: r) 0 : Int)

/-- The element value stored by EIP_parse_tag: atol converted to CN_UDINT
(reduction mod 2^32). -/
def element_of (s : List Nat) : Nat := ((atol s) % (2 ^ 32 : Int)).toNat

/-- The loop of EIP_parse_tag from ether_ip.c. Some list means the loop
returned normally with the segments accumulated from here on; none is the
explicit error return (an unterminated bracket). A zero-length name breaks
the loop; a dot continues after the name; a bracket (the only other
delimiter strcspn stops at) takes atol of the rest and continues after the
closing bracket. -/
def parseLoop (s : List Nat) : Option (List TagSeg) :=
  if _hlen : strcspn_dot_bracket s = 0 then some []
  else
    match _hdrop : s.drop (strcspn_dot_bracket s) with
    | [] => some [TagSeg.name (s.take (strcspn_dot_bracket s))]
    | c :: r =>
      if c = 46 then
        (parseLoop r).map (fun l => TagSeg.name (s.take (strcspn_dot_bracket s)) :: l)
      else
        match _hchr : after_rbracket r with
        | none => none
        | some r2 =>
          (parseLoop r2).map (fun l =>
            TagSeg.name (s.take (strcspn_dot_bracket s)) ::
              TagSeg.element (element_of r) :: l)
termination_by s.length
decreasing_by
  · have hle : ∀ t : List Nat, strcspn_dot_bracket t ≤ t.length := by
      intro t
      induction t with
      | nil => simp [strcspn_dot_bracket]
      | cons c cs ih =>
        simp only [strcspn_dot_bracket]
        split_ifs <;> simp <;> omega
    have h1 : (s.drop (strcspn_dot_bracket s)).length =
        s.length - strcspn_dot_bracket s := List.length_drop _ _
    rw [_hdrop] at h1
    simp at h1
    have h2 := hle s
    omega
  · have hle : ∀ t : List Nat, strcspn_dot_bracket t ≤ t.length := by
      intro t
      induction t with
      | nil => simp [strcspn_dot_bracket]
      | cons c cs ih =>
        simp only [strcspn_dot_bracket]
        split_ifs <;> simp <;> omega
    have harb : ∀ (u w : List Nat), after_rbracket u = some w →
        w.length < u.length := by
      intro u
      induction u with
      | nil => intro w h; simp [after_rbracket] at h
      | cons c cs ih =>
        intro w h
        by_cases hc : c = 93
        · simp [after_rbracket, hc] at h
          subst h
          simp
        · simp only [after_rbracket, if_neg hc] at h
          have := ih w h
          simp
          omega
    have h1 : (s.drop (strcspn_dot_bracket s)).length =
        s.length - strcspn_dot_bracket s := List.length_drop _ _
    rw [_hdrop] at h1
    simp at h1
    have h2 := hle s
    have h3 := harb r r2 _hchr
    omega

/-- EIP_parse_tag from ether_ip.c. The C returns the head pointer of the
accumulated list; NULL stands both for the explicit error return and for an
empty accumulation, so the observable result is the empty list exactly when
the C returns NULL. -/
def EIP_parse_tag (s : List Nat) : List TagSeg := (parseLoop s).getD []

/-- Spec-side helper: the input string of a dotted sequence of names. -/
def dotted : List (List Nat) → List Nat
  | [] => []
  | [nm] => nm
  | nm :: rest => nm ++ 46 :: dotted rest

/-- The data-model bounds of one segment (spec section 3): a name has 1..255
octets; an element index is a CN_UDINT. -/
def seg_wf : TagSeg → Bool
  | TagSeg.name s => decide (1 ≤ s.length ∧ s.length ≤ 255)
  | TagSeg.element e => decide (e < 2 ^ 32)

/-- Spec-side byte description of one segment, following the words of the
claim: 0x91, len, the name bytes, a zero pad iff len is odd; 0x28 index, or
0x29 0x00 and the index as 2 little-endian bytes, or 0x2A 0x00 and the index
as 4 little-endian bytes. -/
def seg_bytes_spec : TagSeg → List Nat
  | TagSeg.name s =>
    [0x91, s.length] ++ s ++ (if s.length % 2 = 1 then [0] else [])
  | TagSeg.element e =>
    if e ≤ 0xFF then [0x28, e]
    else if e ≤ 0xFFFF then [0x29, 0x00, e % 256, e / 256]
    else [0x2A, 0x00, e % 256, e / 256 % 256, e / 65536 % 256, e / 16777216]

/-! ## CIP_MultiRequest packing (ether_ip.c) -/

/-- The offset-zeroing loop of prepare_CIP_MultiRequest: n UINT zeros at
consecutive positions, two bytes each. -/
def pack_zero_offsets (m : Mem) (a : Nat) : Nat → Mem
  | 0 => m
  | n + 1 => pack_zero_offsets (pack_UINT m a 0) (a + 2) n

/-- raw_MR_Request_data from ether_ip.c: the data section follows the
2-octet header and the path of request[1] words. -/
def raw_MR_Request_data (m : Mem) (a : Nat) : Nat := a + 2 + (m (a + 1) % 256) * 2

/-- prepare_CIP_MultiRequest from ether_ip.c: MR request with the
MessageRouter path, the count, offset[0] = (count+1)*2 from the count field,
and zeroed offset fields for the remaining count-1 requests. The C returns
true unconditionally; the model returns the written memory. -/
def prepare_CIP_MultiRequest (m : Mem) (a count : Nat) : Mem :=
  let m1 := make_MR_Request m a S_CIP_MultiRequest
    (CIA_path_size C_MessageRouter 1 0)
  let m2 := make_CIA_path m1 (a + 2) C_MessageRouter 1 0
  let m3 := pack_UINT m2 (a + 6) count
  let m4 := pack_UINT m3 (a + 8) ((count + 1) * 2)
  pack_zero_offsets m4 (a + 10) (count - 1)

/-- CIP_MultiRequest_item from ether_ip.c: check the index against the count
field, read offset[request_no] and fail when it is zero (not called in
order), return the item position count-field address plus offset, and when
another request follows deposit its offset. -/
def CIP_MultiRequest_item (m : Mem) (a request_no single_request_size : Nat) :
    Option (Nat × Mem) :=
  let countp := raw_MR_Request_data m a
  let offsetp := countp + 2
  let count := unpack_UINT m countp
  if request_no ≥ count then none
  else
    let offset := unpack_UINT m (offsetp + 2 * request_no)
    if offset = 0 then none
    else
      let item := countp + offset
      if request_no + 1 < count then
        some (item, pack_UINT m (offsetp + 2 * (request_no + 1))
          (offset + single_request_size))
      else some (item, m)

/-- Deposit the given request sizes by CIP_MultiRequest_item calls in
ascending order starting at the given index, collecting the returned item
positions. -/
def run_items (m : Mem) (a : Nat) (i : Nat) : List Nat → Option (List Nat × Mem)
  | [] => some ([], m)
  | sz :: rest =>
    match CIP_MultiRequest_item m a i sz with
    | none => none
    | some (item, m2) =>
      match run_items m2 a (i + 1) rest with
      | none => none
      | some (items, m3) => some (item :: items, m3)

/-- Invariant of the packed MultiRequest: the path-size byte is 2, the count
field holds N, and offset[i] (read from the count field) is filled with
2*(N+1) plus the prefix sum of the deposited sizes for i up to k, zero
above. -/
def offsets_ok (m : Mem) (a N k : Nat) (sizes : List Nat) : Prop :=
  m (a + 1) % 256 = 2 ∧
  unpack_UINT m (a + 6) = N ∧
  ∀ i < N, unpack_UINT m (a + 8 + 2 * i) =
    if i ≤ k then 2 * (N + 1) + ((sizes.take i).sum) else 0

/-! ## Growable buffers (EIP_reserve_buffer) -/

/-- A growable connection buffer: allocated byte size and contents. -/
structure EIPBuffer where
  size : Nat
  data : Nat → Nat

/-- EIP_reserve_buffer from ether_ip.c. The C routine calls malloc for a
larger block and copies the old contents over; whether malloc succeeds, and
the uninitialized contents of the fresh block, are inputs of the model. -/
def EIP_reserve_buffer (b : EIPBuffer) (requested : Nat)
    (alloc_ok : Bool) (fresh : Nat → Nat) : Bool × EIPBuffer :=
  if b.size ≥ requested then (true, b)
  else if alloc_ok then
    (true, EIPBuffer.mk requested (fun i => if i < b.size then b.data i else fresh i))
  else (false, b)

/-! ## PLC disconnect (drvEtherIP.c) -/

/-- The TagInfo fields guarded by the data lock that invalidation touches. -/
structure TagData where
  valid_data_size : Nat
  data_size : Nat
  do_write : Bool
  is_writing : Bool
deriving DecidableEq

/-- The connection-related state of one PLC: socket (0 when closed), session,
and the tags of its scan lists. -/
structure PLCState where
  sock : Nat
  session : Nat
  scanlists : List (List TagData)
deriving DecidableEq

/-- invalidate_PLC_tags from drvEtherIP.c: zero valid_data_size of every tag
on every scan list; the per-tag data locks always succeed in this sequential
model. -/
def invalidate_PLC_tags (p : PLCState) : PLCState :=
  PLCState.mk p.sock p.session
    (p.scanlists.map (List.map (fun t =>
      TagData.mk 0 t.data_size t.do_write t.is_writing)))

/-- EIP_shutdown from ether_ip.c: sends UnRegisterSession (network traffic
only) and then EIP_disconnect, which closes the socket, leaving sock = 0. -/
def EIP_shutdown (p : PLCState) : PLCState :=
  PLCState.mk 0 p.session p.scanlists

/-- disconnect_PLC from drvEtherIP.c: only acts when a connection exists. -/
def disconnect_PLC (p : PLCState) : PLCState :=
  if p.sock ≠ 0 then invalidate_PLC_tags (EIP_shutdown p) else p

/-! ## Cached tag sizes and their completion (drvEtherIP.c) -/

/-- The cached wire sizes and write flag of one TagInfo (fields
cip_r_request_size, cip_r_response_size, cip_w_request_size,
cip_w_response_size, do_write of drvEtherIP.h). -/
structure TagSizes where
  cip_r_request_size : Nat
  cip_r_response_size : Nat
  cip_w_request_size : Nat
  cip_w_response_size : Nat
  do_write : Bool
deriving DecidableEq

/-- Loop body of complete_PLC_ScanList_TagInfos from drvEtherIP.c for one tag.
The EIP_read_tag network probe is an oracle input: some (request_size,
response_size) when the probe read succeeds, none when it fails. -/
def complete_TagInfo (t : TagSizes) (probe : Option (Nat × Nat)) : TagSizes :=
  if t.cip_r_request_size ≠ 0 ∨ t.cip_r_response_size ≠ 0 then t
  else match probe with
  | some (req, resp) =>
    if resp ≤ 4 then TagSizes.mk req resp 0 0 t.do_write
    else TagSizes.mk req resp (req + (resp - 4)) 4 t.do_write
  | none => TagSizes.mk 0 0 0 0 t.do_write

/-- determine_MultiRequest_count from drvEtherIP.c, as a tail recursion over
the rest of the scan list with the accumulators count, requests_size and
responses_size. Tags with empty cip_r_request_size are skipped; a tag with
do_write set contributes its write sizes, any other its read sizes. The
per-tag data locks always succeed in this sequential model (the side effect
on is_writing is treated in the write-protocol model below). -/
def determine_loop (limit : Nat) : Nat → Nat → Nat → List TagSizes → Nat
  | count, _, _, [] => count
  | count, requests_size, responses_size, info :: rest =>
    if info.cip_r_request_size = 0 then
      determine_loop limit count requests_size responses_size rest
    else
      let try_req := requests_size +
        (if info.do_write then info.cip_w_request_size else info.cip_r_request_size)
      let try_resp := responses_size +
        (if info.do_write then info.cip_w_response_size else info.cip_r_response_size)
      if CIP_MultiRequest_size (count + 1) try_req > limit ∨
         CIP_MultiResponse_size (count + 1) try_resp > limit then count
      else determine_loop limit (count + 1) try_req try_resp rest

/-- Entry point of determine_MultiRequest_count: accumulators start at 0. -/
def determine_MultiRequest_count (limit : Nat) (tags : List TagSizes) : Nat :=
  determine_loop limit 0 0 0 tags

/-- The request size one tag contributes to a transfer: its write sizes when
do_write is set, its read sizes otherwise - the choice
determine_MultiRequest_count makes under the data lock. -/
def chosen_request_size (t : TagSizes) : Nat :=
  if t.do_write then t.cip_w_request_size else t.cip_r_request_size

/-- The response size one tag contributes to a transfer. -/
def chosen_response_size (t : TagSizes) : Nat :=
  if t.do_write then t.cip_w_response_size else t.cip_r_response_size

/-- The tags the worker considers: tags with an empty cip_r_request_size are
skipped (invariant I5). -/
def eligible_tags (tags : List TagSizes) : List TagSizes :=
  tags.filter (fun t => t.cip_r_request_size != 0)

/-- Spec-side predicate of the batching claim: the first k eligible tags fit
the transfer buffer limit both as a packed MultiRequest and as the estimated
MultiResponse. -/
def fits (limit : Nat) (e : List TagSizes) (k : Nat) : Prop :=
  CIP_MultiRequest_size k (((e.take k).map chosen_request_size).sum) ≤ limit ∧
  CIP_MultiResponse_size k (((e.take k).map chosen_response_size).sum) ≤ limit

/-! ## The do_write / is_writing protocol (drvEtherIP.c) -/

/-- The pair (do_write, is_writing) of one tag. -/
abbrev WState := Bool × Bool

/-- The atomic operations that touch the pair: the consumer scheduling a
write (modelled from the spec: device support sets do_write under the tag
lock; that caller is outside the sources), the classification step of
determine_MultiRequest_count, the request-build step of process_ScanList
(write branch, taken when is_writing, clears do_write after the bytes are
placed), and its response handling (clears is_writing). -/
inductive WOp where
  | consumer
  | classify
  | send
  | respond
deriving DecidableEq

/-- Effect of one operation on (do_write, is_writing), read off the
corresponding lines of drvEtherIP.c. -/
def wstep : WOp → WState → WState
  | WOp.consumer, (_, w) => (true, w)
  | WOp.classify, (d, w) => if d then (true, true) else (d, w)
  | WOp.send, (d, w) => if w then (false, true) else (d, w)
  | WOp.respond, (d, w) => if w then (d, false) else (d, w)

/-- Run a sequence of operations from the idle state (0,0). -/
def wrun (ops : List WOp) : WState := ops.foldl (fun s o => wstep o s) (false, false)

/-- A state of the pair is reachable if some operation sequence produces it. -/
def Wreachable (s : WState) : Prop := ∃ ops : List WOp, wrun ops = s

/-- The transitions the claim allows: the four-step cycle plus the (1,1)
reentry. -/
def claimedEdges : List (WState × WState) :=
  [((false, false), (true, false)), ((true, false), (true, true)),
   ((true, true), (false, true)), ((false, true), (false, false)),
   ((true, true), (true, true))]

/-- The transitions the code actually admits: the claimed ones plus a
consumer write request arriving while the write response is pending,
(0,1) to (1,1), and the response handling that then follows, (1,1) to (1,0). -/
def amendedEdges : List (WState × WState) :=
  claimedEdges ++ [((false, true), (true, true)), ((true, true), (true, false))]

/-! ## Theorems -/

/-- Reading a byte other than the one just stored sees the previous memory. -/
theorem memUpd_miss (m : Mem) (a v x : Nat) (h : x ≠ a) : memUpd m a v x = m x := by
  simp [memUpd, h]

/-- Reading the byte just stored sees the stored value, truncated to 8 bit. -/
theorem memUpd_hit (m : Mem) (a v x : Nat) (h : x = a) : memUpd m a v x = v % 256 := by
  simp [memUpd, h]

/-- C6: a tag whose probe read succeeds gets its write sizes derived from the
read sizes (write_req = read_req + (read_resp - 4) and write_resp = 4 when
read_resp > 4, otherwise both 0); a failed probe zeroes all four cached
sizes, and such a tag is then skipped by the worker batching loop. -/
theorem complete_TagInfo_derives_write_sizes (w1 w2 : Nat) (dw : Bool)
    (req resp : Nat) :
    complete_TagInfo (TagSizes.mk 0 0 w1 w2 dw) (some (req, resp)) =
      (if resp > 4 then TagSizes.mk req resp (req + (resp - 4)) 4 dw
       else TagSizes.mk req resp 0 0 dw) ∧
    complete_TagInfo (TagSizes.mk 0 0 w1 w2 dw) none = TagSizes.mk 0 0 0 0 dw ∧
    ∀ limit count rs ps rest,
      determine_loop limit count rs ps
          (complete_TagInfo (TagSizes.mk 0 0 w1 w2 dw) none :: rest) =
        determine_loop limit count rs ps rest := by
  refine ⟨?_, by simp [complete_TagInfo], ?_⟩
  · by_cases h : resp ≤ 4
    · simp [complete_TagInfo, h, Nat.not_lt.mpr h]
    · simp [complete_TagInfo, h, Nat.lt_of_not_le h]
  · intro limit count rs ps rest
    simp [complete_TagInfo, determine_loop]

/-- C9: disconnect_PLC on a connected PLC closes the connection and zeroes
valid_data_size of every tag on every scan list; on an already-disconnected
PLC it changes nothing. -/
theorem disconnect_PLC_invalidates (p : PLCState) :
    (p.sock ≠ 0 →
      (disconnect_PLC p).sock = 0 ∧
      ∀ l ∈ (disconnect_PLC p).scanlists, ∀ t ∈ l, t.valid_data_size = 0) ∧
    (p.sock = 0 → disconnect_PLC p = p) := by
  constructor
  · intro h
    refine ⟨by simp [disconnect_PLC, h, invalidate_PLC_tags, EIP_shutdown], ?_⟩
    intro l hl t ht
    simp only [disconnect_PLC, if_pos h, invalidate_PLC_tags, EIP_shutdown,
      List.mem_map] at hl
    obtain ⟨l0, _, rfl⟩ := hl
    simp only [List.mem_map] at ht
    obtain ⟨t0, _, rfl⟩ := ht
    rfl
  · intro h
    simp [disconnect_PLC, h]

/-- Witness for disconnect_PLC_invalidates at a concrete connected PLC. -/
theorem disconnect_PLC_invalidates_witness :
    (PLCState.mk 3 7 [[TagData.mk 5 9 true false]]).sock ≠ 0 ∧
    ((disconnect_PLC (PLCState.mk 3 7 [[TagData.mk 5 9 true false]])).sock = 0 ∧
      ∀ l ∈ (disconnect_PLC (PLCState.mk 3 7 [[TagData.mk 5 9 true false]])).scanlists,
        ∀ t ∈ l, t.valid_data_size = 0) :=
  ⟨by decide,
   (disconnect_PLC_invalidates (PLCState.mk 3 7 [[TagData.mk 5 9 true false]])).1
     (by decide)⟩

/-- C10: EIP_reserve_buffer leaves the size at max(current, requested) on
success and never shrinks the buffer; it preserves the first old-size bytes;
when allocation of a larger block fails it returns false and leaves the
buffer untouched. -/
theorem EIP_reserve_buffer_growth (b : EIPBuffer) (requested : Nat)
    (alloc_ok : Bool) (fresh : Nat → Nat) :
    (b.size ≥ requested →
       EIP_reserve_buffer b requested alloc_ok fresh = (true, b)) ∧
    (b.size < requested → alloc_ok = true →
       (EIP_reserve_buffer b requested alloc_ok fresh).1 = true ∧
       (EIP_reserve_buffer b requested alloc_ok fresh).2.size = requested ∧
       ∀ i < b.size,
         (EIP_reserve_buffer b requested alloc_ok fresh).2.data i = b.data i) ∧
    (b.size < requested → alloc_ok = false →
       EIP_reserve_buffer b requested alloc_ok fresh = (false, b)) ∧
    ((EIP_reserve_buffer b requested alloc_ok fresh).1 = true →
       (EIP_reserve_buffer b requested alloc_ok fresh).2.size =
         max b.size requested) ∧
    b.size ≤ (EIP_reserve_buffer b requested alloc_ok fresh).2.size := by
  refine ⟨fun h => by simp [EIP_reserve_buffer, h], ?_, ?_, ?_, ?_⟩
  · intro h ha
    simp [EIP_reserve_buffer, Nat.not_le.mpr h, ha]
    intro i hi
    simp [hi]
  · intro h ha
    simp [EIP_reserve_buffer, Nat.not_le.mpr h, ha]
  · intro _
    by_cases h : b.size ≥ requested
    · simp [EIP_reserve_buffer, h, Nat.max_eq_left h]
    · rcases alloc_ok with _ | _
      · simp [EIP_reserve_buffer, h] at *
      · simp [EIP_reserve_buffer, h,
          Nat.max_eq_right (Nat.le_of_not_le h)]
  · by_cases h : b.size ≥ requested
    · simp [EIP_reserve_buffer, h]
    · rcases alloc_ok with _ | _
      · simp [EIP_reserve_buffer, h]
      · simp [EIP_reserve_buffer, h]
        exact Nat.le_of_not_le h

/-- Witness for EIP_reserve_buffer_growth: a buffer of size 4 already holds a
request for 2 bytes. -/
theorem EIP_reserve_buffer_growth_witness :
    (EIPBuffer.mk 4 (fun _ => 0)).size ≥ 2 ∧
    EIP_reserve_buffer (EIPBuffer.mk 4 (fun _ => 0)) 2 true (fun _ => 1) =
      (true, EIPBuffer.mk 4 (fun _ => 0)) :=
  ⟨by decide,
   (EIP_reserve_buffer_growth (EIPBuffer.mk 4 (fun _ => 0)) 2 true
     (fun _ => 1)).1 (by decide)⟩

/-- C2 counterexample: from idle, the trace consumer-classify-send reaches
(0,1) with the write response pending; a consumer write request then moves
the pair to (1,1), a state change outside the claimed transition set. -/
theorem wstep_escapes_claimed_cycle :
    Wreachable (false, true) ∧
    wstep WOp.consumer (false, true) = (true, true) ∧
    ((false, true), (true, true)) ∉ claimedEdges ∧
    (false, true) ≠ ((true, true) : WState) :=
  ⟨⟨[WOp.consumer, WOp.classify, WOp.send], by decide⟩, by decide, by decide,
   by decide⟩

/-- C2 amended: every state-changing step from a reachable state is one of
the cycle transitions, the (1,1) reentry, the consumer request (0,1) to
(1,1) while the write response is pending, or the response handling (1,1) to
(1,0) that then follows; and each of these transitions is realized from a
reachable state. -/
theorem wstep_edges_characterized :
    (∀ s : WState, Wreachable s → ∀ o : WOp,
        wstep o s = s ∨ (s, wstep o s) ∈ amendedEdges) ∧
    (∀ e ∈ amendedEdges, Wreachable e.1 ∧ ∃ o : WOp, wstep o e.1 = e.2) := by
  constructor
  · rintro ⟨d, w⟩ _ o
    cases d <;> cases w <;> cases o <;> decide
  · intro e he
    fin_cases he
    · exact ⟨⟨[], by decide⟩, WOp.consumer, by decide⟩
    · exact ⟨⟨[WOp.consumer], by decide⟩, WOp.classify, by decide⟩
    · exact ⟨⟨[WOp.consumer, WOp.classify], by decide⟩, WOp.send, by decide⟩
    · exact ⟨⟨[WOp.consumer, WOp.classify, WOp.send], by decide⟩,
        WOp.respond, by decide⟩
    · exact ⟨⟨[WOp.consumer, WOp.classify], by decide⟩, WOp.consumer, by decide⟩
    · exact ⟨⟨[WOp.consumer, WOp.classify, WOp.send], by decide⟩,
        WOp.consumer, by decide⟩
    · exact ⟨⟨[WOp.consumer, WOp.classify], by decide⟩, WOp.respond, by decide⟩

/-- Given enough fuel, the tick loop returns the count of halvings and the
halved value: the count is the least number of halvings that brings millisec
at or below 255. -/
theorem tick_loop_div : ∀ fuel m t : Nat, m ≤ fuel → ∃ k,
    tick_loop fuel m t = (t + k, m / 2 ^ k) ∧ m / 2 ^ k ≤ 255 ∧
    ∀ j < k, 255 < m / 2 ^ j := by
  intro fuel
  induction fuel with
  | zero =>
    intro m t hm
    exact ⟨0, by simp [tick_loop], by omega, by omega⟩
  | succ fuel ih =>
    intro m t hm
    by_cases h : m > 255
    · obtain ⟨k, hk, hle, hgt⟩ := ih (m / 2) (t + 1) (by omega)
      refine ⟨k + 1, ?_, ?_, ?_⟩
      · rw [tick_loop, if_pos (by omega), hk]
        have hd : m / 2 / 2 ^ k = m / 2 ^ (k + 1) := by
          rw [Nat.div_div_eq_div_mul, pow_succ, Nat.mul_comm]
        rw [hd]
        congr 1
        omega
      · calc m / 2 ^ (k + 1) = m / 2 / 2 ^ k := by
              rw [Nat.div_div_eq_div_mul, pow_succ, Nat.mul_comm]
        _ ≤ 255 := hle
      · intro j hj
        match j with
        | 0 => simpa using h
        | j + 1 =>
          have := hgt j (by omega)
          calc (255 : Nat) < m / 2 / 2 ^ j := this
          _ = m / 2 ^ (j + 1) := by
              rw [Nat.div_div_eq_div_mul, pow_succ, Nat.mul_comm]
    · refine ⟨0, ?_, by simpa using Nat.not_lt.mp h, by omega⟩
      rw [tick_loop, if_neg h]
      simp

/-- The default 245760 ms budget splits into tick_time 10 (1024 ms ticks)
and 240 ticks. -/
theorem calc_tick_time_default : calc_tick_time 245760 = some (10, 240) := by
  decide

/-- C8: on every budget at most 8355840 ms calc_tick_time succeeds with
ticks = millisec shifted right by tick_time, ticks at most 255, tick_time
the least shift achieving that bound; and make_CM_Unconnected_Send takes its
priority/tick pair from the default budget of 245760 ms. -/
theorem calc_tick_time_spec (millisec : Nat) (h : millisec ≤ 8355840) :
    (∃ tick_time ticks,
      calc_tick_time millisec = some (tick_time, ticks) ∧
      ticks = millisec >>> tick_time ∧ ticks ≤ 255 ∧
      ∀ j < tick_time, 255 < millisec >>> j) ∧
    ∀ (m : Mem) (b s : Nat),
      ((make_CM_Unconnected_Send m b s).2 (b + 6),
        (make_CM_Unconnected_Send m b s).2 (b + 7)) =
        (calc_tick_time 245760).getD (0, 0) := by
  constructor
  · obtain ⟨k, hk, hle, hgt⟩ := tick_loop_div millisec millisec 0 (Nat.le_refl _)
    refine ⟨k, millisec / 2 ^ k, ?_, ?_, hle, ?_⟩
    · rw [calc_tick_time, if_neg (by omega), hk]
      simp
    · rw [Nat.shiftRight_eq_div_pow]
    · intro j hj
      rw [Nat.shiftRight_eq_div_pow]
      exact hgt j hj
  · intro m b s
    simp only [make_CM_Unconnected_Send, make_MR_Request, make_CIA_path,
      pack_USINT, pack_UINT, make_port_path, port_path_size,
      calc_tick_time_default, memUpd, Option.getD_some]
    norm_num
    constructor <;>
      rw [if_neg (by omega), if_neg (by omega), if_neg (by omega),
        if_neg (by omega)]

/-- Witness for calc_tick_time_spec at a 1000 ms budget. -/
theorem calc_tick_time_spec_witness :
    (1000 : Nat) ≤ 8355840 ∧
    ((∃ tick_time ticks,
      calc_tick_time 1000 = some (tick_time, ticks) ∧
      ticks = 1000 >>> tick_time ∧ ticks ≤ 255 ∧
      ∀ j < tick_time, 255 < 1000 >>> j) ∧
    ∀ (m : Mem) (b s : Nat),
      ((make_CM_Unconnected_Send m b s).2 (b + 6),
        (make_CM_Unconnected_Send m b s).2 (b + 7)) =
        (calc_tick_time 245760).getD (0, 0)) :=
  ⟨by omega, calc_tick_time_spec 1000 (by omega)⟩

/-- The two packed-size helpers are linear in count and payload. -/
theorem CIP_MultiRequest_size_eq (c r : Nat) :
    CIP_MultiRequest_size c r = 8 + 2 * c + r := by
  simp [CIP_MultiRequest_size, CIA_path_size]

/-- Companion linear form for the response size. -/
theorem CIP_MultiResponse_size_eq (c r : Nat) :
    CIP_MultiResponse_size c r = 6 + 2 * c + r := by
  simp [CIP_MultiResponse_size]

/-- Invariant of the batching loop: starting from the given
accumulators, it adds the longest prefix of the remaining eligible tags
whose accumulated packed sizes stay within the limit, and stops exactly when
the next eligible tag would push either packed size past the limit. -/
theorem determine_loop_spec (limit : Nat) :
    ∀ (l : List TagSizes) (count rs ps : Nat), ∃ j,
      determine_loop limit count rs ps l = count + j ∧
      j ≤ (eligible_tags l).length ∧
      (∀ i, 1 ≤ i → i ≤ j →
        CIP_MultiRequest_size (count + i)
          (rs + (((eligible_tags l).take i).map chosen_request_size).sum) ≤ limit ∧
        CIP_MultiResponse_size (count + i)
          (ps + (((eligible_tags l).take i).map chosen_response_size).sum) ≤ limit) ∧
      (j < (eligible_tags l).length →
        CIP_MultiRequest_size (count + (j + 1))
          (rs + (((eligible_tags l).take (j + 1)).map chosen_request_size).sum) > limit ∨
        CIP_MultiResponse_size (count + (j + 1))
          (ps + (((eligible_tags l).take (j + 1)).map chosen_response_size).sum) > limit) := by
  intro l
  induction l with
  | nil =>
    intro count rs ps
    refine ⟨0, by simp [determine_loop], by simp [eligible_tags], by omega,
      by simp [eligible_tags]⟩
  | cons t rest ih =>
    intro count rs ps
    by_cases h0 : t.cip_r_request_size = 0
    · have he : eligible_tags (t :: rest) = eligible_tags rest := by
        simp [eligible_tags, h0]
      have hd : determine_loop limit count rs ps (t :: rest) =
          determine_loop limit count rs ps rest := by
        simp [determine_loop, h0]
      rw [he, hd]
      exact ih count rs ps
    · have he : eligible_tags (t :: rest) = t :: eligible_tags rest := by
        simp [eligible_tags, h0]
      have hcreq : (if t.do_write then t.cip_w_request_size else t.cip_r_request_size)
          = chosen_request_size t := rfl
      have hcresp : (if t.do_write then t.cip_w_response_size else t.cip_r_response_size)
          = chosen_response_size t := rfl
      by_cases hov : CIP_MultiRequest_size (count + 1) (rs + chosen_request_size t) > limit ∨
          CIP_MultiResponse_size (count + 1) (ps + chosen_response_size t) > limit
      · have hd : determine_loop limit count rs ps (t :: rest) = count := by
          simp only [determine_loop, if_neg h0, hcreq, hcresp]
          rw [if_pos hov]
        refine ⟨0, by rw [hd]; omega, by omega, by omega, ?_⟩
        intro _
        rw [he]
        simpa using hov
      · have hd : determine_loop limit count rs ps (t :: rest) =
            determine_loop limit (count + 1) (rs + chosen_request_size t)
              (ps + chosen_response_size t) rest := by
          simp only [determine_loop, if_neg h0, hcreq, hcresp]
          rw [if_neg hov]
        push_neg at hov
        obtain ⟨j, hj, hlen, hall, hnext⟩ :=
          ih (count + 1) (rs + chosen_request_size t) (ps + chosen_response_size t)
        refine ⟨j + 1, ?_, ?_, ?_, ?_⟩
        · rw [hd, hj]; omega
        · rw [he]; simp; omega
        · intro i h1 h2
          rw [he]
          match i, h1 with
          | 1, _ =>
            simp only [List.take_succ_cons, List.take_zero, List.map_cons,
              List.map_nil, List.sum_cons, List.sum_nil]
            rw [CIP_MultiRequest_size_eq, CIP_MultiResponse_size_eq] at *
            omega
          | (i + 2), _ =>
            have := hall (i + 1) (by omega) (by omega)
            simp only [List.take_succ_cons, List.map_cons, List.sum_cons]
            rw [CIP_MultiRequest_size_eq, CIP_MultiResponse_size_eq] at this ⊢
            omega
        · intro hlt
          rw [he] at hlt ⊢
          simp only [List.length_cons] at hlt
          have := hnext (by omega)
          simp only [List.take_succ_cons, List.map_cons, List.sum_cons]
          rw [CIP_MultiRequest_size_eq, CIP_MultiResponse_size_eq] at this ⊢
          omega

/-- Fitting within the limit is antitone in the tag count: any prefix of
a fitting prefix fits. -/
theorem fits_mono (limit : Nat) (e : List TagSizes) (i k : Nat) (hik : i ≤ k)
    (hf : fits limit e k) : fits limit e i := by
  simp only [fits] at hf ⊢
  obtain ⟨h1, h2⟩ := hf
  have hsplit : e.take k = e.take i ++ (e.drop i).take (k - i) := by
    rw [← List.take_add]
    congr 1
    omega
  rw [hsplit, List.map_append, List.sum_append] at h1 h2
  constructor
  · rw [CIP_MultiRequest_size_eq] at h1 ⊢
    omega
  · rw [CIP_MultiResponse_size_eq] at h2 ⊢
    omega

/-- C1: determine_MultiRequest_count returns the largest count k of
consecutive eligible tags (read_req_size = 0 excluded, write sizes chosen
for tags with do_write) whose packed MultiRequest and MultiResponse sizes
both stay within the transfer buffer limit: the returned count fits (or is
0), one more eligible tag would exceed the limit, and every fitting prefix
length is at most the returned count - in particular it is 0 when even the
first eligible tag alone exceeds the limit. -/
theorem determine_MultiRequest_count_max (limit : Nat) (tags : List TagSizes) :
    determine_MultiRequest_count limit tags ≤ (eligible_tags tags).length ∧
    (determine_MultiRequest_count limit tags = 0 ∨
      fits limit (eligible_tags tags) (determine_MultiRequest_count limit tags)) ∧
    (determine_MultiRequest_count limit tags < (eligible_tags tags).length →
      ¬ fits limit (eligible_tags tags)
        (determine_MultiRequest_count limit tags + 1)) ∧
    ∀ k ≤ (eligible_tags tags).length,
      fits limit (eligible_tags tags) k →
        k ≤ determine_MultiRequest_count limit tags := by
  obtain ⟨j, hj, hlen, hall, hnext⟩ := determine_loop_spec limit tags 0 0 0
  have hn : determine_MultiRequest_count limit tags = j := by
    rw [determine_MultiRequest_count, hj]; omega
  rw [hn]
  refine ⟨hlen, ?_, ?_, ?_⟩
  · rcases Nat.eq_zero_or_pos j with h | h
    · exact Or.inl h
    · refine Or.inr ⟨?_, ?_⟩
      · have := (hall j (by omega) (by omega)).1
        simpa using this
      · have := (hall j (by omega) (by omega)).2
        simpa using this
  · intro hlt hfit
    have := hnext hlt
    obtain ⟨hf1, hf2⟩ := hfit
    simp only [Nat.zero_add] at this
    rcases this with h | h
    · rw [CIP_MultiRequest_size_eq] at h hf1
      omega
    · rw [CIP_MultiResponse_size_eq] at h hf2
      omega
  · intro k hk hfk
    by_contra hgt
    push_neg at hgt
    have hlt : j < (eligible_tags tags).length := by omega
    have hov := hnext hlt
    have hfj1 : fits limit (eligible_tags tags) (j + 1) :=
      fits_mono limit _ (j + 1) k (by omega) hfk
    obtain ⟨hf1, hf2⟩ := hfj1
    simp only [Nat.zero_add] at hov
    rcases hov with h | h
    · rw [CIP_MultiRequest_size_eq] at h hf1
      omega
    · rw [CIP_MultiResponse_size_eq] at h hf2
      omega

/-- Witness for determine_MultiRequest_count_max: limit 80 with three
tags of read sizes 30/30 packs exactly 2 tags. -/
theorem determine_MultiRequest_count_max_witness :
    determine_MultiRequest_count 80
      [TagSizes.mk 30 30 0 0 false, TagSizes.mk 30 30 0 0 false,
        TagSizes.mk 30 30 0 0 false] ≠ 0 ∧
    fits 80 (eligible_tags
      [TagSizes.mk 30 30 0 0 false, TagSizes.mk 30 30 0 0 false,
        TagSizes.mk 30 30 0 0 false])
      (determine_MultiRequest_count 80
        [TagSizes.mk 30 30 0 0 false, TagSizes.mk 30 30 0 0 false,
          TagSizes.mk 30 30 0 0 false]) :=
  ⟨by decide,
   ((determine_MultiRequest_count_max 80
      [TagSizes.mk 30 30 0 0 false, TagSizes.mk 30 30 0 0 false,
        TagSizes.mk 30 30 0 0 false]).2.1).resolve_left (by decide)⟩

/-- An unterminated bracket search fails. -/
theorem after_rbracket_none (v : List Nat) (hv : 93 ∉ v) :
    after_rbracket v = none := by
  induction v with
  | nil => rfl
  | cons c cs ih =>
    simp only [List.mem_cons] at hv
    push_neg at hv
    rw [after_rbracket, if_neg (fun h => hv.1 h.symm)]
    exact ih hv.2

/-- A name free of delimiters followed by a delimiter spans exactly the
name. -/
theorem strcspn_append_delim (nm : List Nat) (d : Nat) (v : List Nat)
    (hnm : ∀ c ∈ nm, ¬(c = 46 ∨ c = 91)) (hd : d = 46 ∨ d = 91) :
    strcspn_dot_bracket (nm ++ d :: v) = nm.length := by
  induction nm with
  | nil => simp [strcspn_dot_bracket, hd]
  | cons c cs ih =>
    have hc := hnm c (by simp)
    simp only [List.cons_append, strcspn_dot_bracket, if_neg hc, List.length_cons]
    have := ih (fun x hx => hnm x (by simp [hx]))
    simp only [List.append_eq] at *
    omega

/-- The delimiter-free prefix never exceeds the string. -/
theorem strcspn_le_length (s : List Nat) : strcspn_dot_bracket s ≤ s.length := by
  induction s with
  | nil => simp [strcspn_dot_bracket]
  | cons c cs ih =>
    simp only [strcspn_dot_bracket]
    split_ifs <;> simp <;> omega

/-- A dotted name sequence followed by an unterminated bracket drives the
parse loop into its error return. -/
theorem parseLoop_unterminated : ∀ (names : List (List Nat)) (v : List Nat),
    names ≠ [] →
    (∀ nm ∈ names, nm ≠ [] ∧ ∀ c ∈ nm, ¬(c = 46 ∨ c = 91)) →
    93 ∉ v →
    parseLoop (dotted names ++ 91 :: v) = none := by
  intro names
  induction names with
  | nil => intro v h; exact absurd rfl h
  | cons nm rest ih =>
    intro v _ hwf hv
    obtain ⟨hne, hcs⟩ := hwf nm (by simp)
    cases rest with
    | nil =>
      have hs : dotted [nm] ++ 91 :: v = nm ++ 91 :: v := by simp [dotted]
      rw [hs]
      have hlen : strcspn_dot_bracket (nm ++ 91 :: v) = nm.length :=
        strcspn_append_delim nm 91 v hcs (Or.inr rfl)
      rw [parseLoop]
      rw [dif_neg (by rw [hlen]; simpa using hne)]
      have hdrop : (nm ++ 91 :: v).drop (strcspn_dot_bracket (nm ++ 91 :: v)) =
          91 :: v := by
        rw [hlen]
        exact List.drop_left nm (91 :: v)
      split
      · rename_i heq
        rw [hdrop] at heq
        cases heq
      · rename_i c r heq
        rw [hdrop] at heq
        injection heq with hc hr
        subst hc
        subst hr
        rw [if_neg (by omega)]
        split
        · rfl
        · rename_i r2 heq2
          rw [after_rbracket_none v hv] at heq2
          cases heq2
    | cons nm2 rest2 =>
      have hs : dotted (nm :: nm2 :: rest2) ++ 91 :: v =
          nm ++ 46 :: (dotted (nm2 :: rest2) ++ 91 :: v) := by
        simp [dotted]
      rw [hs]
      have hlen : strcspn_dot_bracket (nm ++ 46 :: (dotted (nm2 :: rest2) ++ 91 :: v)) =
          nm.length :=
        strcspn_append_delim nm 46 _ hcs (Or.inl rfl)
      rw [parseLoop]
      rw [dif_neg (by rw [hlen]; simpa using hne)]
      have hdrop : (nm ++ 46 :: (dotted (nm2 :: rest2) ++ 91 :: v)).drop
          (strcspn_dot_bracket (nm ++ 46 :: (dotted (nm2 :: rest2) ++ 91 :: v))) =
          46 :: (dotted (nm2 :: rest2) ++ 91 :: v) := by
        rw [hlen]
        exact List.drop_left nm _
      split
      · rename_i heq
        rw [hdrop] at heq
        cases heq
      · rename_i c r heq
        rw [hdrop] at heq
        injection heq with hc hr
        subst hc
        subst hr
        rw [if_pos rfl]
        rw [ih v (by simp) (fun x hx => hwf x (by simp [hx])) hv]
        rfl

/-- A nonempty parse result starts with a nonempty name segment. -/
theorem parseLoop_head_name : ∀ (s : List Nat) (l : List TagSeg),
    parseLoop s = some l → l ≠ [] →
    ∃ nm rest, l = TagSeg.name nm :: rest ∧ nm ≠ [] := by
  intro s l h hne
  rw [parseLoop] at h
  by_cases hlen : strcspn_dot_bracket s = 0
  · rw [dif_pos hlen] at h
    simp at h
    exact absurd h hne
  · rw [dif_neg hlen] at h
    have htk : s.take (strcspn_dot_bracket s) ≠ [] := by
      have h1 := strcspn_le_length s
      intro habs
      have h2 : (s.take (strcspn_dot_bracket s)).length = 0 := by rw [habs]; rfl
      rw [List.length_take] at h2
      omega
    split at h
    · simp at h
      exact ⟨_, [], h.symm, htk⟩
    · rename_i c r hdrop
      split at h
      · rcases hmap : parseLoop r with _ | l2
        · rw [hmap] at h; simp at h
        · rw [hmap] at h
          simp at h
          exact ⟨_, l2, h.symm, htk⟩
      · split at h
        · simp at h
        · rename_i r2 hchr
          rcases hmap : parseLoop r2 with _ | l2
          · rw [hmap] at h; simp at h
          · rw [hmap] at h
            simp at h
            exact ⟨_, TagSeg.element (element_of r) :: l2, h.symm, htk⟩

/-- The bracket search returns the suffix after the first closing
bracket. -/
theorem after_rbracket_found : ∀ (ds t : List Nat), 93 ∉ ds →
    after_rbracket (ds ++ 93 :: t) = some t := by
  intro ds
  induction ds with
  | nil =>
    intro t _
    simp [after_rbracket]
  | cons c cs ih =>
    intro t hds
    simp only [List.mem_cons] at hds
    push_neg at hds
    simp only [List.cons_append]
    rw [after_rbracket, if_neg (fun h => hds.1 h.symm)]
    exact ih t hds.2

/-- The parse loop on an empty string breaks at once, returning the empty
accumulation. -/
theorem parseLoop_empty : parseLoop [] = some [] := by
  rw [parseLoop]
  rfl

/-- The parse loop breaks at once on a leading delimiter (an empty name),
returning the empty accumulation. -/
theorem parseLoop_break (c : Nat) (u : List Nat) (hc : c = 46 ∨ c = 91) :
    parseLoop (c :: u) = some [] := by
  rw [parseLoop]
  rw [dif_pos (by simp [strcspn_dot_bracket, hc])]

/-- A dotted sequence of nonempty names with a trailing dot parses to the
name segments: the loop breaks at the empty trailing segment and returns
the accumulated list. -/
theorem parseLoop_trailing_dot : ∀ (names : List (List Nat)),
    names ≠ [] →
    (∀ nm ∈ names, nm ≠ [] ∧ ∀ c ∈ nm, ¬(c = 46 ∨ c = 91)) →
    parseLoop (dotted names ++ [46]) = some (names.map TagSeg.name) := by
  intro names
  induction names with
  | nil => intro h; exact absurd rfl h
  | cons nm rest ih =>
    intro _ hwf
    obtain ⟨hne, hcs⟩ := hwf nm (by simp)
    cases rest with
    | nil =>
      have hs : dotted [nm] ++ [46] = nm ++ 46 :: ([] : List Nat) := by
        simp [dotted]
      rw [hs]
      have hlen : strcspn_dot_bracket (nm ++ 46 :: []) = nm.length :=
        strcspn_append_delim nm 46 [] hcs (Or.inl rfl)
      rw [parseLoop]
      rw [dif_neg (by rw [hlen]; simpa using hne)]
      split
      · rename_i heq
        rw [hlen, List.drop_left nm (46 :: [])] at heq
        cases heq
      · rename_i c r heq
        rw [hlen, List.drop_left nm (46 :: [])] at heq
        injection heq with hc hr
        subst hc
        subst hr
        rw [if_pos rfl, parseLoop_empty]
        rw [hlen, List.take_left nm (46 :: [])]
        rfl
    | cons nm2 rest2 =>
      have hs : dotted (nm :: nm2 :: rest2) ++ [46] =
          nm ++ 46 :: (dotted (nm2 :: rest2) ++ [46]) := by
        simp [dotted]
      rw [hs]
      have hlen : strcspn_dot_bracket
          (nm ++ 46 :: (dotted (nm2 :: rest2) ++ [46])) = nm.length :=
        strcspn_append_delim nm 46 _ hcs (Or.inl rfl)
      rw [parseLoop]
      rw [dif_neg (by rw [hlen]; simpa using hne)]
      split
      · rename_i heq
        rw [hlen, List.drop_left nm _] at heq
        cases heq
      · rename_i c r heq
        rw [hlen, List.drop_left nm _] at heq
        injection heq with hc hr
        subst hc
        subst hr
        rw [if_pos rfl]
        rw [ih (by simp) (fun x hx => hwf x (by simp [hx]))]
        rw [hlen, List.take_left nm _]
        rfl

/-- A name and a completed bracket segment followed by a leftover that
starts with a delimiter parse to the two segments: the loop breaks at the
leftover, even when it is an unterminated opening bracket. -/
theorem parseLoop_bracket_leftover (nm ds u : List Nat) (c : Nat)
    (hne : nm ≠ []) (hcs : ∀ ch ∈ nm, ¬(ch = 46 ∨ ch = 91))
    (hds : 93 ∉ ds) (hc : c = 46 ∨ c = 91) :
    parseLoop (nm ++ 91 :: (ds ++ 93 :: c :: u)) =
      some [TagSeg.name nm, TagSeg.element (element_of (ds ++ 93 :: c :: u))] := by
  have hlen : strcspn_dot_bracket (nm ++ 91 :: (ds ++ 93 :: c :: u)) = nm.length :=
    strcspn_append_delim nm 91 _ hcs (Or.inr rfl)
  rw [parseLoop]
  rw [dif_neg (by rw [hlen]; simpa using hne)]
  split
  · rename_i heq
    rw [hlen, List.drop_left nm _] at heq
    cases heq
  · rename_i c2 r heq
    rw [hlen, List.drop_left nm _] at heq
    injection heq with hc2 hr
    subst hc2
    subst hr
    rw [if_neg (by omega)]
    split
    · rename_i heq2
      rw [after_rbracket_found ds (c :: u) hds] at heq2
      cases heq2
    · rename_i r2 heq2
      rw [after_rbracket_found ds (c :: u) hds] at heq2
      injection heq2 with hr2
      subst hr2
      rw [parseLoop_break c u hc]
      rw [hlen, List.take_left nm _]
      rfl

/-- C5 (amended): EIP_parse_tag fails (returns the null result, the empty
list) on an empty input, on an input whose leading name is empty (a leading
dot or bracket), and on a dotted sequence of nonempty names followed by an
opening bracket with no closing bracket after it. It does not fail on every
malformed input: a dotted name sequence with a trailing dot is accepted and
returns exactly the name segments, and a completed bracket segment followed
by a delimiter-led leftover - including an unterminated second bracket as
in A[1][2 - is accepted and returns the segments before the leftover.
Every ParsedTag it does return is non-empty and begins with a nonempty name
segment. -/
theorem EIP_parse_tag_failures :
    EIP_parse_tag [] = [] ∧
    (∀ s, EIP_parse_tag (46 :: s) = []) ∧
    (∀ s, EIP_parse_tag (91 :: s) = []) ∧
    (∀ (names : List (List Nat)) (v : List Nat), names ≠ [] →
      (∀ nm ∈ names, nm ≠ [] ∧ ∀ c ∈ nm, ¬(c = 46 ∨ c = 91)) →
      93 ∉ v →
      EIP_parse_tag (dotted names ++ 91 :: v) = []) ∧
    (∀ (names : List (List Nat)), names ≠ [] →
      (∀ nm ∈ names, nm ≠ [] ∧ ∀ c ∈ nm, ¬(c = 46 ∨ c = 91)) →
      EIP_parse_tag (dotted names ++ [46]) = names.map TagSeg.name) ∧
    (∀ (nm ds u : List Nat) (c : Nat), nm ≠ [] →
      (∀ ch ∈ nm, ¬(ch = 46 ∨ ch = 91)) →
      93 ∉ ds → (c = 46 ∨ c = 91) →
      EIP_parse_tag (nm ++ 91 :: (ds ++ 93 :: c :: u)) =
        [TagSeg.name nm, TagSeg.element (element_of (ds ++ 93 :: c :: u))]) ∧
    (∀ s, EIP_parse_tag s ≠ [] →
      ∃ nm rest, EIP_parse_tag s = TagSeg.name nm :: rest ∧ nm ≠ []) := by
  refine ⟨?_, ?_, ?_, ?_, ?_, ?_, ?_⟩
  · rw [EIP_parse_tag, parseLoop]
    simp [strcspn_dot_bracket]
  · intro s
    rw [EIP_parse_tag, parseLoop]
    simp [strcspn_dot_bracket]
  · intro s
    rw [EIP_parse_tag, parseLoop]
    simp [strcspn_dot_bracket]
  · intro names v h1 h2 h3
    rw [EIP_parse_tag, parseLoop_unterminated names v h1 h2 h3]
    rfl
  · intro names h1 h2
    rw [EIP_parse_tag, parseLoop_trailing_dot names h1 h2]
    rfl
  · intro nm ds u c h1 h2 h3 h4
    rw [EIP_parse_tag, parseLoop_bracket_leftover nm ds u c h1 h2 h3 h4]
    rfl
  · intro s hne
    rcases hp : parseLoop s with _ | l
    · rw [EIP_parse_tag, hp] at hne
      simp at hne
    · have hl : EIP_parse_tag s = l := by rw [EIP_parse_tag, hp]; rfl
      rw [hl] at hne ⊢
      exact parseLoop_head_name s l hp hne

/-- Witness for EIP_parse_tag_failures: the input A[1][2 (bytes 65 91 49
93 91 50) contains an unterminated bracket yet parses to the non-null list
of the name A and element 1. -/
theorem EIP_parse_tag_failures_witness :
    (([65] : List Nat) ≠ []) ∧
    EIP_parse_tag ([65] ++ 91 :: ([49] ++ 93 :: 91 :: [50])) =
      [TagSeg.name [65], TagSeg.element (element_of ([49] ++ 93 :: 91 :: [50]))] :=
  ⟨by decide,
   EIP_parse_tag_failures.2.2.2.2.2.1 [65] [49] [50] 91 (by decide)
     (by decide) (by decide) (by decide)⟩

/-- C5 counterexample: the claim says a trailing dot fails, but the code
accepts the input Fred. (bytes 70 114 101 100 46) and returns the one-name
tag Fred rather than the null result. -/
theorem EIP_parse_tag_trailing_dot_cex :
    EIP_parse_tag [70, 114, 101, 100, 46] = [TagSeg.name [70, 114, 101, 100]] ∧
    EIP_parse_tag [70, 114, 101, 100, 46] ≠ [] := by
  constructor
  · rw [EIP_parse_tag, parseLoop]
    simp [strcspn_dot_bracket, parseLoop]
  · rw [EIP_parse_tag, parseLoop]
    simp [strcspn_dot_bracket, parseLoop]

/-- Every segment contributes an even number of path bytes. -/
theorem tag_path_bytes_even (tag : ParsedTag) : tag_path_bytes tag % 2 = 0 := by
  induction tag with
  | nil => simp [tag_path_bytes]
  | cons g rest ih =>
    cases g with
    | name s => simp only [tag_path_bytes]; omega
    | element e =>
      simp only [tag_path_bytes]
      split_ifs <;> omega

/-- The emitted path has exactly tag_path_bytes bytes. -/
theorem make_tag_path_length (tag : ParsedTag) :
    (make_tag_path tag).length = tag_path_bytes tag := by
  induction tag with
  | nil => simp [make_tag_path, tag_path_bytes]
  | cons g rest ih =>
    cases g with
    | name s =>
      simp only [make_tag_path, tag_path_bytes, List.length_cons,
        List.length_append, ih]
      split_ifs <;> simp <;> omega
    | element e =>
      simp only [make_tag_path, tag_path_bytes, List.length_append, ih]
      split_ifs <;> simp

/-- C4: for every ParsedTag within the data-model bounds, make_tag_path
emits per name segment 0x91, the length, the name bytes and a zero pad iff
the length is odd, and per element segment 0x28 with one index byte, 0x29
0x00 with two little-endian index bytes, or 0x2A 0x00 with four
little-endian index bytes; the emitted byte count is always even and equals
2 * tag_path_size (the word size). -/
theorem make_tag_path_spec (tag : ParsedTag)
    (h : ∀ g ∈ tag, seg_wf g = true) :
    make_tag_path tag = (tag.map seg_bytes_spec).flatten ∧
    (make_tag_path tag).length % 2 = 0 ∧
    (make_tag_path tag).length = 2 * tag_path_size tag := by
  refine ⟨?_, ?_, ?_⟩
  · induction tag with
    | nil => simp [make_tag_path]
    | cons g rest ih =>
      have hg := h g (by simp)
      have hrest : ∀ g ∈ rest, seg_wf g = true := fun g hgr => h g (by simp [hgr])
      cases g with
      | name s =>
        have hlen : s.length ≤ 255 := by
          simp [seg_wf] at hg
          omega
        simp only [make_tag_path, List.map_cons, List.flatten, seg_bytes_spec]
        rw [Nat.mod_eq_of_lt (by omega), ih hrest]
        simp
      | element e =>
        have he : e < 2 ^ 32 := by simpa [seg_wf] using hg
        simp only [make_tag_path, List.map_cons, List.flatten, seg_bytes_spec]
        rw [ih hrest]
        congr 1
        split_ifs with h1 h2
        · simp
          omega
        · simp
          omega
        · simp
          omega
  · rw [make_tag_path_length]
    exact tag_path_bytes_even tag
  · rw [make_tag_path_length, tag_path_size]
    have := tag_path_bytes_even tag
    omega

/-- Witness for make_tag_path_spec on the Fred.Barney[5].Wilma tag of
spec scenario S1. -/
theorem make_tag_path_spec_witness :
    (∀ g ∈ [TagSeg.name [70, 114, 101, 100], TagSeg.name [66, 97, 114, 110, 101, 121],
        TagSeg.element 5, TagSeg.name [87, 105, 108, 109, 97]], seg_wf g = true) ∧
    (make_tag_path [TagSeg.name [70, 114, 101, 100],
        TagSeg.name [66, 97, 114, 110, 101, 121],
        TagSeg.element 5, TagSeg.name [87, 105, 108, 109, 97]] =
      (([TagSeg.name [70, 114, 101, 100], TagSeg.name [66, 97, 114, 110, 101, 121],
        TagSeg.element 5, TagSeg.name [87, 105, 108, 109, 97]]).map seg_bytes_spec).flatten ∧
     (make_tag_path [TagSeg.name [70, 114, 101, 100],
        TagSeg.name [66, 97, 114, 110, 101, 121],
        TagSeg.element 5, TagSeg.name [87, 105, 108, 109, 97]]).length % 2 = 0 ∧
     (make_tag_path [TagSeg.name [70, 114, 101, 100],
        TagSeg.name [66, 97, 114, 110, 101, 121],
        TagSeg.element 5, TagSeg.name [87, 105, 108, 109, 97]]).length =
      2 * tag_path_size [TagSeg.name [70, 114, 101, 100],
        TagSeg.name [66, 97, 114, 110, 101, 121],
        TagSeg.element 5, TagSeg.name [87, 105, 108, 109, 97]]) :=
  ⟨by decide, make_tag_path_spec _ (by decide)⟩

/-- C7 (amended): make_CM_Unconnected_Send builds an MR request to the
ConnectionManager (class 0x06, instance 1) with service 0x52 and a 2-word
path, carries the priority/tick byte (10) and timeout ticks (240) from the
default budget, the inner message size as a little-endian u16, leaves the
padded message area untouched for the nested request, and ends with the
port-path word count 1, a reserved 0, and the route path port 1, link 0
(bytes 01 00 01 00 - the source emits no class 0x02 / instance 1 segment);
the emitted extent equals CM_Unconnected_Send_size. -/
theorem make_CM_Unconnected_Send_layout (m : Mem) (b s : Nat) :
    (make_CM_Unconnected_Send m b s).1 = b + 10 ∧
    (make_CM_Unconnected_Send m b s).2 b = S_CM_Unconnected_Send ∧
    (make_CM_Unconnected_Send m b s).2 (b + 1) = 2 ∧
    (make_CM_Unconnected_Send m b s).2 (b + 2) = 0x20 ∧
    (make_CM_Unconnected_Send m b s).2 (b + 3) = C_ConnectionManager ∧
    (make_CM_Unconnected_Send m b s).2 (b + 4) = 0x24 ∧
    (make_CM_Unconnected_Send m b s).2 (b + 5) = 1 ∧
    (make_CM_Unconnected_Send m b s).2 (b + 6) = 10 ∧
    (make_CM_Unconnected_Send m b s).2 (b + 7) = 240 ∧
    (make_CM_Unconnected_Send m b s).2 (b + 8) = s % 256 ∧
    (make_CM_Unconnected_Send m b s).2 (b + 9) = s / 256 % 256 ∧
    (∀ x, b + 10 ≤ x → x < b + 10 + s + s % 2 →
      (make_CM_Unconnected_Send m b s).2 x = m x) ∧
    (make_CM_Unconnected_Send m b s).2 (b + 10 + s + s % 2) = 1 ∧
    (make_CM_Unconnected_Send m b s).2 (b + 10 + s + s % 2 + 1) = 0 ∧
    (make_CM_Unconnected_Send m b s).2 (b + 10 + s + s % 2 + 2) = 1 ∧
    (make_CM_Unconnected_Send m b s).2 (b + 10 + s + s % 2 + 3) = 0 ∧
    10 + s + s % 2 + 4 = CM_Unconnected_Send_size s := by
  refine ⟨?_, ?_, ?_, ?_, ?_, ?_, ?_, ?_, ?_, ?_, ?_, ?_, ?_, ?_, ?_, ?_, ?_⟩
  · rfl
  · simp only [make_CM_Unconnected_Send, make_MR_Request, make_CIA_path,
    pack_USINT, pack_UINT, make_port_path, port_path_size,
    S_CM_Unconnected_Send, C_ConnectionManager, CIA_path_size,
    calc_tick_time_default, Option.getD_some, ne_eq, not_true, reduceIte]
    rw [memUpd_miss _ _ _ _ (by omega),
    memUpd_miss _ _ _ _ (by omega),
    memUpd_miss _ _ _ _ (by omega),
    memUpd_miss _ _ _ _ (by omega),
    memUpd_miss _ _ _ _ (by omega),
    memUpd_miss _ _ _ _ (by omega),
    memUpd_miss _ _ _ _ (by omega),
    memUpd_miss _ _ _ _ (by omega),
    memUpd_miss _ _ _ _ (by omega),
    memUpd_miss _ _ _ _ (by omega),
    memUpd_miss _ _ _ _ (by omega),
    memUpd_miss _ _ _ _ (by omega),
    memUpd_miss _ _ _ _ (by omega),
    memUpd_hit _ _ _ _ (by omega)]
  · simp only [make_CM_Unconnected_Send, make_MR_Request, make_CIA_path,
    pack_USINT, pack_UINT, make_port_path, port_path_size,
    S_CM_Unconnected_Send, C_ConnectionManager, CIA_path_size,
    calc_tick_time_default, Option.getD_some, ne_eq, not_true, reduceIte]
    rw [memUpd_miss _ _ _ _ (by omega),
    memUpd_miss _ _ _ _ (by omega),
    memUpd_miss _ _ _ _ (by omega),
    memUpd_miss _ _ _ _ (by omega),
    memUpd_miss _ _ _ _ (by omega),
    memUpd_miss _ _ _ _ (by omega),
    memUpd_miss _ _ _ _ (by omega),
    memUpd_miss _ _ _ _ (by omega),
    memUpd_miss _ _ _ _ (by omega),
    memUpd_miss _ _ _ _ (by omega),
    memUpd_miss _ _ _ _ (by omega),
    memUpd_miss _ _ _ _ (by omega),
    memUpd_hit _ _ _ _ (by omega)]
  · simp only [make_CM_Unconnected_Send, make_MR_Request, make_CIA_path,
    pack_USINT, pack_UINT, make_port_path, port_path_size,
    S_CM_Unconnected_Send, C_ConnectionManager, CIA_path_size,
    calc_tick_time_default, Option.getD_some, ne_eq, not_true, reduceIte]
    rw [memUpd_miss _ _ _ _ (by omega),
    memUpd_miss _ _ _ _ (by omega),
    memUpd_miss _ _ _ _ (by omega),
    memUpd_miss _ _ _ _ (by omega),
    memUpd_miss _ _ _ _ (by omega),
    memUpd_miss _ _ _ _ (by omega),
    memUpd_miss _ _ _ _ (by omega),
    memUpd_miss _ _ _ _ (by omega),
    memUpd_miss _ _ _ _ (by omega),
    memUpd_miss _ _ _ _ (by omega),
    memUpd_miss _ _ _ _ (by omega),
    memUpd_hit _ _ _ _ (by omega)]
  · simp only [make_CM_Unconnected_Send, make_MR_Request, make_CIA_path,
    pack_USINT, pack_UINT, make_port_path, port_path_size,
    S_CM_Unconnected_Send, C_ConnectionManager, CIA_path_size,
    calc_tick_time_default, Option.getD_some, ne_eq, not_true, reduceIte]
    rw [memUpd_miss _ _ _ _ (by omega),
    memUpd_miss _ _ _ _ (by omega),
    memUpd_miss _ _ _ _ (by omega),
    memUpd_miss _ _ _ _ (by omega),
    memUpd_miss _ _ _ _ (by omega),
    memUpd_miss _ _ _ _ (by omega),
    memUpd_miss _ _ _ _ (by omega),
    memUpd_miss _ _ _ _ (by omega),
    memUpd_miss _ _ _ _ (by omega),
    memUpd_miss _ _ _ _ (by omega),
    memUpd_hit _ _ _ _ (by omega)]
  · simp only [make_CM_Unconnected_Send, make_MR_Request, make_CIA_path,
    pack_USINT, pack_UINT, make_port_path, port_path_size,
    S_CM_Unconnected_Send, C_ConnectionManager, CIA_path_size,
    calc_tick_time_default, Option.getD_some, ne_eq, not_true, reduceIte]
    rw [memUpd_miss _ _ _ _ (by omega),
    memUpd_miss _ _ _ _ (by omega),
    memUpd_miss _ _ _ _ (by omega),
    memUpd_miss _ _ _ _ (by omega),
    memUpd_miss _ _ _ _ (by omega),
    memUpd_miss _ _ _ _ (by omega),
    memUpd_miss _ _ _ _ (by omega),
    memUpd_miss _ _ _ _ (by omega),
    memUpd_miss _ _ _ _ (by omega),
    memUpd_hit _ _ _ _ (by omega)]
  · simp only [make_CM_Unconnected_Send, make_MR_Request, make_CIA_path,
    pack_USINT, pack_UINT, make_port_path, port_path_size,
    S_CM_Unconnected_Send, C_ConnectionManager, CIA_path_size,
    calc_tick_time_default, Option.getD_some, ne_eq, not_true, reduceIte]
    rw [memUpd_miss _ _ _ _ (by omega),
    memUpd_miss _ _ _ _ (by omega),
    memUpd_miss _ _ _ _ (by omega),
    memUpd_miss _ _ _ _ (by omega),
    memUpd_miss _ _ _ _ (by omega),
    memUpd_miss _ _ _ _ (by omega),
    memUpd_miss _ _ _ _ (by omega),
    memUpd_miss _ _ _ _ (by omega),
    memUpd_hit _ _ _ _ (by omega)]
  · simp only [make_CM_Unconnected_Send, make_MR_Request, make_CIA_path,
    pack_USINT, pack_UINT, make_port_path, port_path_size,
    S_CM_Unconnected_Send, C_ConnectionManager, CIA_path_size,
    calc_tick_time_default, Option.getD_some, ne_eq, not_true, reduceIte]
    rw [memUpd_miss _ _ _ _ (by omega),
    memUpd_miss _ _ _ _ (by omega),
    memUpd_miss _ _ _ _ (by omega),
    memUpd_miss _ _ _ _ (by omega),
    memUpd_miss _ _ _ _ (by omega),
    memUpd_miss _ _ _ _ (by omega),
    memUpd_miss _ _ _ _ (by omega),
    memUpd_hit _ _ _ _ (by omega)]
  · simp only [make_CM_Unconnected_Send, make_MR_Request, make_CIA_path,
    pack_USINT, pack_UINT, make_port_path, port_path_size,
    S_CM_Unconnected_Send, C_ConnectionManager, CIA_path_size,
    calc_tick_time_default, Option.getD_some, ne_eq, not_true, reduceIte]
    rw [memUpd_miss _ _ _ _ (by omega),
    memUpd_miss _ _ _ _ (by omega),
    memUpd_miss _ _ _ _ (by omega),
    memUpd_miss _ _ _ _ (by omega),
    memUpd_miss _ _ _ _ (by omega),
    memUpd_miss _ _ _ _ (by omega),
    memUpd_hit _ _ _ _ (by omega)]
  · simp only [make_CM_Unconnected_Send, make_MR_Request, make_CIA_path,
    pack_USINT, pack_UINT, make_port_path, port_path_size,
    S_CM_Unconnected_Send, C_ConnectionManager, CIA_path_size,
    calc_tick_time_default, Option.getD_some, ne_eq, not_true, reduceIte]
    rw [memUpd_miss _ _ _ _ (by omega),
    memUpd_miss _ _ _ _ (by omega),
    memUpd_miss _ _ _ _ (by omega),
    memUpd_miss _ _ _ _ (by omega),
    memUpd_miss _ _ _ _ (by omega),
    memUpd_hit _ _ _ _ (by omega)]
    omega
  · simp only [make_CM_Unconnected_Send, make_MR_Request, make_CIA_path,
    pack_USINT, pack_UINT, make_port_path, port_path_size,
    S_CM_Unconnected_Send, C_ConnectionManager, CIA_path_size,
    calc_tick_time_default, Option.getD_some, ne_eq, not_true, reduceIte]
    rw [memUpd_miss _ _ _ _ (by omega),
    memUpd_miss _ _ _ _ (by omega),
    memUpd_miss _ _ _ _ (by omega),
    memUpd_miss _ _ _ _ (by omega),
    memUpd_hit _ _ _ _ (by omega)]
    omega
  · intro x h1 h2
    simp only [make_CM_Unconnected_Send, make_MR_Request, make_CIA_path,
    pack_USINT, pack_UINT, make_port_path, port_path_size,
    S_CM_Unconnected_Send, C_ConnectionManager, CIA_path_size,
    calc_tick_time_default, Option.getD_some, ne_eq, not_true, reduceIte]
    rw [memUpd_miss _ _ _ _ (by omega),
    memUpd_miss _ _ _ _ (by omega),
    memUpd_miss _ _ _ _ (by omega),
    memUpd_miss _ _ _ _ (by omega),
    memUpd_miss _ _ _ _ (by omega),
    memUpd_miss _ _ _ _ (by omega),
    memUpd_miss _ _ _ _ (by omega),
    memUpd_miss _ _ _ _ (by omega),
    memUpd_miss _ _ _ _ (by omega),
    memUpd_miss _ _ _ _ (by omega),
    memUpd_miss _ _ _ _ (by omega),
    memUpd_miss _ _ _ _ (by omega),
    memUpd_miss _ _ _ _ (by omega),
    memUpd_miss _ _ _ _ (by omega)]
  · simp only [make_CM_Unconnected_Send, make_MR_Request, make_CIA_path,
    pack_USINT, pack_UINT, make_port_path, port_path_size,
    S_CM_Unconnected_Send, C_ConnectionManager, CIA_path_size,
    calc_tick_time_default, Option.getD_some, ne_eq, not_true, reduceIte]
    rw [memUpd_miss _ _ _ _ (by omega),
    memUpd_miss _ _ _ _ (by omega),
    memUpd_miss _ _ _ _ (by omega),
    memUpd_hit _ _ _ _ (by omega)]
  · simp only [make_CM_Unconnected_Send, make_MR_Request, make_CIA_path,
    pack_USINT, pack_UINT, make_port_path, port_path_size,
    S_CM_Unconnected_Send, C_ConnectionManager, CIA_path_size,
    calc_tick_time_default, Option.getD_some, ne_eq, not_true, reduceIte]
    rw [memUpd_miss _ _ _ _ (by omega),
    memUpd_miss _ _ _ _ (by omega),
    memUpd_hit _ _ _ _ (by omega)]
  · simp only [make_CM_Unconnected_Send, make_MR_Request, make_CIA_path,
    pack_USINT, pack_UINT, make_port_path, port_path_size,
    S_CM_Unconnected_Send, C_ConnectionManager, CIA_path_size,
    calc_tick_time_default, Option.getD_some, ne_eq, not_true, reduceIte]
    rw [memUpd_miss _ _ _ _ (by omega),
    memUpd_hit _ _ _ _ (by omega)]
  · simp only [make_CM_Unconnected_Send, make_MR_Request, make_CIA_path,
    pack_USINT, pack_UINT, make_port_path, port_path_size,
    S_CM_Unconnected_Send, C_ConnectionManager, CIA_path_size,
    calc_tick_time_default, Option.getD_some, ne_eq, not_true, reduceIte]
    rw [memUpd_hit _ _ _ _ (by omega)]
  · simp only [CM_Unconnected_Send_size, MR_Request_size, CIA_path_size,
      ne_eq, not_true, reduceIte]

/-- C7 counterexample: for the 12-byte inner message built at base 0 over
zeroed memory the emitted request is 26 bytes and its trailing six bytes are
00 00 01 00 01 00 (end of the padded message area, then path word count 1,
reserved 0, port 1, link 0), not the claimed route path 01 00 20 02 24 01
with a class 0x02 / instance 1 segment. -/
theorem make_CM_Unconnected_Send_route_cex :
    CM_Unconnected_Send_size 12 = 26 ∧
    List.map (fun i => (make_CM_Unconnected_Send (fun _ => 0) 0 12).2 i)
      [20, 21, 22, 23, 24, 25] = [0, 0, 1, 0, 1, 0] ∧
    List.map (fun i => (make_CM_Unconnected_Send (fun _ => 0) 0 12).2 i)
      [20, 21, 22, 23, 24, 25] ≠ [0x01, 0x00, 0x20, 0x02, 0x24, 0x01] := by
  refine ⟨by decide, by decide, by decide⟩

/-- Witness for make_CM_Unconnected_Send_layout: the padded message area is
untouched at a concrete position. -/
theorem make_CM_Unconnected_Send_layout_witness :
    (0 : Nat) + 10 ≤ 11 ∧ 11 < 0 + 10 + 12 + 12 % 2 ∧
    (make_CM_Unconnected_Send (fun _ => 7) 0 12).2 11 = 7 :=
  ⟨by omega, by omega,
   ((make_CM_Unconnected_Send_layout (fun _ => 7) 0 12).2.2.2.2.2.2.2.2.2.2.2.1)
     11 (by omega) (by omega)⟩

/-- Witness for wstep_edges_characterized at the idle state and a consumer
step. -/
theorem wstep_edges_characterized_witness :
    Wreachable (false, false) ∧
    (wstep WOp.consumer (false, false) = (false, false) ∨
      ((false, false), wstep WOp.consumer (false, false)) ∈ amendedEdges) :=
  ⟨⟨[], by decide⟩,
   wstep_edges_characterized.1 (false, false) ⟨[], by decide⟩ WOp.consumer⟩

/-- Reading back the low byte of a packed UINT. -/
theorem pack_UINT_read_lo (m : Mem) (a v : Nat) : pack_UINT m a v a = v % 256 := by
  rw [pack_UINT, memUpd_miss _ _ _ _ (by omega), memUpd_hit _ _ _ _ rfl]
  omega

/-- Reading back the high byte of a packed UINT. -/
theorem pack_UINT_read_hi (m : Mem) (a v : Nat) :
    pack_UINT m a v (a + 1) = v / 256 % 256 := by
  rw [pack_UINT, memUpd_hit _ _ _ _ rfl]
  omega

/- Invariant on the offset table: the path size byte, the count field, and
offset[i] filled for i up to k (from count, in bytes), zero above. -/

/-- A packed UINT leaves other bytes alone. -/
theorem pack_UINT_read_out (m : Mem) (a v x : Nat) (h : x ≠ a ∧ x ≠ a + 1) :
    pack_UINT m a v x = m x := by
  rw [pack_UINT, memUpd_miss _ _ _ _ h.2, memUpd_miss _ _ _ _ h.1]

/-- A packed UINT unpacks to the value mod 2^16. -/
theorem unpack_pack (m : Mem) (a v : Nat) :
    unpack_UINT (pack_UINT m a v) a = v % 65536 := by
  rw [unpack_UINT, pack_UINT]
  rw [memUpd_hit _ _ _ _ rfl, memUpd_miss _ _ _ _ (by omega), memUpd_hit _ _ _ _ rfl]
  omega

/-- Unpacking only depends on the two bytes read. -/
theorem unpack_UINT_congr (m m2 : Mem) (a : Nat) (h1 : m2 a = m a)
    (h2 : m2 (a + 1) = m (a + 1)) : unpack_UINT m2 a = unpack_UINT m a := by
  rw [unpack_UINT, unpack_UINT, h1, h2]

/-- The zeroing loop leaves bytes outside its range alone. -/
theorem pack_zero_offsets_out : ∀ (n : Nat) (m : Mem) (a x : Nat),
    (x < a ∨ a + 2 * n ≤ x) → pack_zero_offsets m a n x = m x := by
  intro n
  induction n with
  | zero => intro m a x _; rfl
  | succ n ih =>
    intro m a x hx
    rw [pack_zero_offsets]
    rw [ih _ _ _ (by omega)]
    rw [pack_UINT_read_out _ _ _ _ (by omega)]

/-- The zeroing loop clears every byte in its range. -/
theorem pack_zero_offsets_in : ∀ (n : Nat) (m : Mem) (a x : Nat),
    a ≤ x → x < a + 2 * n → pack_zero_offsets m a n x = 0 := by
  intro n
  induction n with
  | zero => intro m a x h1 h2; omega
  | succ n ih =>
    intro m a x h1 h2
    rw [pack_zero_offsets]
    by_cases hx : a + 2 ≤ x
    · exact ih _ _ _ hx (by omega)
    · rw [pack_zero_offsets_out _ _ _ _ (by omega)]
      rcases Nat.lt_or_ge x (a + 1) with h | h
      · rw [pack_UINT, memUpd_miss _ _ _ _ (by omega), memUpd_hit _ _ _ _ (by omega)]
      · rw [pack_UINT, memUpd_hit _ _ _ _ (by omega)]

/-- Byte layout after prepare_CIP_MultiRequest: path size 2, the count
and offset[0] fields little-endian, offsets 1..count-1 zeroed. -/
theorem prepare_layout (m : Mem) (a N : Nat) :
    prepare_CIP_MultiRequest m a N (a + 1) = 2 ∧
    prepare_CIP_MultiRequest m a N (a + 6) = N % 256 ∧
    prepare_CIP_MultiRequest m a N (a + 7) = N / 256 % 256 ∧
    prepare_CIP_MultiRequest m a N (a + 8) = (N + 1) * 2 % 256 ∧
    prepare_CIP_MultiRequest m a N (a + 9) = (N + 1) * 2 / 256 % 256 ∧
    (∀ x, a + 10 ≤ x → x < a + 10 + 2 * (N - 1) →
      prepare_CIP_MultiRequest m a N x = 0) := by
  refine ⟨?_, ?_, ?_, ?_, ?_, ?_⟩
  · simp only [prepare_CIP_MultiRequest, make_MR_Request, make_CIA_path,
      pack_USINT, S_CIP_MultiRequest, C_MessageRouter, CIA_path_size,
      ne_eq, not_true, reduceIte]
    rw [pack_zero_offsets_out _ _ _ _ (by omega),
      pack_UINT_read_out _ _ _ _ (by omega),
      pack_UINT_read_out _ _ _ _ (by omega),
      memUpd_miss _ _ _ _ (by omega), memUpd_miss _ _ _ _ (by omega),
      memUpd_miss _ _ _ _ (by omega), memUpd_miss _ _ _ _ (by omega),
      memUpd_hit _ _ _ _ rfl]
  · simp only [prepare_CIP_MultiRequest, make_MR_Request, make_CIA_path,
      pack_USINT, S_CIP_MultiRequest, C_MessageRouter, CIA_path_size,
      ne_eq, not_true, reduceIte]
    rw [pack_zero_offsets_out _ _ _ _ (by omega),
      pack_UINT_read_out _ _ _ _ (by omega),
      pack_UINT_read_lo]
  · simp only [prepare_CIP_MultiRequest, make_MR_Request, make_CIA_path,
      pack_USINT, S_CIP_MultiRequest, C_MessageRouter, CIA_path_size,
      ne_eq, not_true, reduceIte]
    rw [pack_zero_offsets_out _ _ _ _ (by omega),
      pack_UINT_read_out _ _ _ _ (by omega)]
    have : a + 7 = a + 6 + 1 := by omega
    rw [this, pack_UINT_read_hi]
  · simp only [prepare_CIP_MultiRequest, make_MR_Request, make_CIA_path,
      pack_USINT, S_CIP_MultiRequest, C_MessageRouter, CIA_path_size,
      ne_eq, not_true, reduceIte]
    rw [pack_zero_offsets_out _ _ _ _ (by omega), pack_UINT_read_lo]
  · simp only [prepare_CIP_MultiRequest, make_MR_Request, make_CIA_path,
      pack_USINT, S_CIP_MultiRequest, C_MessageRouter, CIA_path_size,
      ne_eq, not_true, reduceIte]
    rw [pack_zero_offsets_out _ _ _ _ (by omega)]
    have : a + 9 = a + 8 + 1 := by omega
    rw [this, pack_UINT_read_hi]
  · intro x h1 h2
    simp only [prepare_CIP_MultiRequest, make_MR_Request, make_CIA_path,
      pack_USINT, S_CIP_MultiRequest, C_MessageRouter, CIA_path_size,
      ne_eq, not_true, reduceIte]
    rw [pack_zero_offsets_in _ _ _ _ (by omega) (by omega)]

/-- prepare_CIP_MultiRequest establishes the offset-table invariant with
no item deposited yet. -/
theorem prepare_establishes (m : Mem) (a N : Nat) (sizes : List Nat)
    (hN : N ≤ 0xFFFF) (hb : 2 * (N + 1) ≤ 0xFFFF) :
    offsets_ok (prepare_CIP_MultiRequest m a N) a N 0 sizes := by
  obtain ⟨h1, h6, h7, h8, h9, hz⟩ := prepare_layout m a N
  refine ⟨by rw [h1], ?_, ?_⟩
  · rw [unpack_UINT]
    have : a + 6 + 1 = a + 7 := by omega
    rw [this, h6, h7]
    omega
  · intro i hi
    rcases Nat.eq_zero_or_pos i with rfl | hpos
    · simp only [Nat.le_refl, if_pos, Nat.mul_zero, Nat.add_zero]
      rw [unpack_UINT]
      have : a + 8 + 2 * 0 = a + 8 := by omega
      rw [this]
      have : a + 8 + 1 = a + 9 := by omega
      rw [this, h8, h9]
      simp
      omega
    · rw [if_neg (by omega)]
      rw [unpack_UINT]
      rw [hz _ (by omega) (by omega), hz _ (by omega) (by omega)]

/-- A prefix sum never exceeds the total. -/
theorem take_sum_le (l : List Nat) (n : Nat) : (l.take n).sum ≤ l.sum := by
  conv_rhs => rw [← List.take_append_drop n l]
  rw [List.sum_append]
  omega

/-- Extending a prefix by the next element of the list. -/
theorem take_succ_of_drop {l : List Nat} {k sz : Nat} {rest : List Nat}
    (h : l.drop k = sz :: rest) : l.take (k + 1) = l.take k ++ [sz] := by
  rw [List.take_add, h]
  rfl

/-- One in-order CIP_MultiRequest_item call returns the position
count-field address plus offset[k] and re-establishes the invariant with
offset[k+1] deposited. -/
theorem item_step (m : Mem) (a N k sz : Nat) (sizes : List Nat) (rest : List Nat)
    (hok : offsets_ok m a N k sizes) (hlen : sizes.length = N)
    (hdropk : sizes.drop k = sz :: rest)
    (hsum : 2 * (N + 1) + sizes.sum ≤ 0xFFFF) :
    ∃ m2, CIP_MultiRequest_item m a k sz =
        some (a + 6 + (2 * (N + 1) + (sizes.take k).sum), m2) ∧
      offsets_ok m2 a N (k + 1) sizes := by
  obtain ⟨hp, hc, ho⟩ := hok
  have hkN : k < N := by
    have h1 : (sizes.drop k).length = sizes.length - k := List.length_drop _ _
    rw [hdropk] at h1
    simp at h1
    omega
  have htake := take_succ_of_drop hdropk
  have htkle := take_sum_le sizes k
  have htkle1 := take_sum_le sizes (k + 1)
  have htksum : (sizes.take (k + 1)).sum = (sizes.take k).sum + sz := by
    rw [htake, List.sum_append]
    simp
  simp only [CIP_MultiRequest_item, raw_MR_Request_data]
  rw [hp]
  have e1 : a + 2 + 2 * 2 = a + 6 := by omega
  rw [e1, hc]
  rw [if_neg (by omega)]
  have e2 : a + 6 + 2 + 2 * k = a + 8 + 2 * k := by omega
  rw [e2, ho k hkN, if_pos (Nat.le_refl k)]
  rw [if_neg (by omega)]
  by_cases hlast : k + 1 < N
  · rw [if_pos hlast]
    refine ⟨_, rfl, ?_, ?_, ?_⟩
    · have e3 : a + 6 + 2 + 2 * (k + 1) = a + 8 + 2 * (k + 1) := by omega
      rw [e3]
      rw [pack_UINT_read_out _ _ _ _ (by omega)]
      exact hp
    · have e3 : a + 6 + 2 + 2 * (k + 1) = a + 8 + 2 * (k + 1) := by omega
      rw [e3]
      rw [unpack_UINT_congr _ _ _ (pack_UINT_read_out _ _ _ _ (by omega))
        (pack_UINT_read_out _ _ _ _ (by omega))]
      exact hc
    · intro i hi
      have e3 : a + 6 + 2 + 2 * (k + 1) = a + 8 + 2 * (k + 1) := by omega
      rw [e3]
      by_cases hik : i = k + 1
      · subst hik
        rw [unpack_pack]
        rw [if_pos (Nat.le_refl _)]
        rw [htksum] at htkle1 ⊢
        omega
      · rw [unpack_UINT_congr _ _ _ (pack_UINT_read_out _ _ _ _ (by omega))
          (pack_UINT_read_out _ _ _ _ (by omega))]
        rw [ho i hi]
        by_cases hik2 : i ≤ k
        · rw [if_pos hik2, if_pos (by omega)]
        · rw [if_neg hik2, if_neg (by omega)]
  · rw [if_neg hlast]
    refine ⟨_, rfl, hp, hc, ?_⟩
    intro i hi
    rw [ho i hi]
    by_cases hik2 : i ≤ k
    · rw [if_pos hik2, if_pos (by omega)]
    · rw [if_neg hik2, if_neg (by omega)]

/-- Depositing the remaining sizes in ascending order succeeds, returns
the item positions at the accumulated offsets, and fills the whole offset
table. -/
theorem run_items_spec : ∀ (rest : List Nat) (m : Mem) (a N k : Nat)
    (sizes : List Nat),
    sizes.length = N →
    sizes.drop k = rest →
    2 * (N + 1) + sizes.sum ≤ 0xFFFF →
    offsets_ok m a N k sizes →
    ∃ items mF, run_items m a k rest = some (items, mF) ∧
      items = (List.range rest.length).map
        (fun j => a + 6 + (2 * (N + 1) + (sizes.take (k + j)).sum)) ∧
      offsets_ok mF a N N sizes := by
  intro rest
  induction rest with
  | nil =>
    intro m a N k sizes hlen hdropk hsum hok
    have hkN : N ≤ k := by
      have h1 : (sizes.drop k).length = sizes.length - k := List.length_drop _ _
      rw [hdropk] at h1
      simp at h1
      omega
    obtain ⟨hp, hc, ho⟩ := hok
    refine ⟨[], m, rfl, by simp, hp, hc, ?_⟩
    intro i hi
    rw [ho i hi, if_pos (by omega), if_pos (by omega)]
  | cons sz rest2 ih =>
    intro m a N k sizes hlen hdropk hsum hok
    obtain ⟨m2, hitem, hok2⟩ := item_step m a N k sz sizes rest2 hok hlen hdropk hsum
    have hdropk2 : sizes.drop (k + 1) = rest2 := by
      have : sizes.drop (k + 1) = (sizes.drop k).drop 1 := by
        rw [List.drop_drop]
      rw [this, hdropk]
      rfl
    obtain ⟨items2, mF, hrun2, hitems2, hokF⟩ :=
      ih m2 a N (k + 1) sizes hlen hdropk2 hsum hok2
    refine ⟨(a + 6 + (2 * (N + 1) + (sizes.take k).sum)) :: items2, mF, ?_, ?_,
      hokF⟩
    · rw [run_items, hitem]
      simp only [hrun2]
    · rw [hitems2]
      simp only [List.length_cons, List.range_succ_eq_map, List.map_cons,
        List.map_map]
      simp only [List.cons.injEq]
      constructor
      · simp
      · apply List.map_congr_left
        intro j _
        simp only [Function.comp_apply]
        have e : k + 1 + j = k + (j + 1) := by omega
        rw [e]

/-- C3: after prepare_CIP_MultiRequest(request, N) and N in-order
CIP_MultiRequest_item calls with sizes s_0..s_(N-1), the offset table
satisfies offset[i] = 2*(N+1) + sum of s_j for j < i, each returned item
position is the count-field address (base + 6) plus offset[i], and the
packed request ends exactly CIP_MultiRequest_size(N, sum s_i) bytes after
the base; a call with an index at or past N, or out of ascending order
right after prepare, returns the error result. The bounds keep every
offset within the 16-bit field it is stored in. -/
theorem CIP_MultiRequest_offsets (m : Mem) (a N : Nat) (sizes : List Nat)
    (hlen : sizes.length = N)
    (hsum : 2 * (N + 1) + sizes.sum ≤ 0xFFFF) :
    (∃ items mF,
      run_items (prepare_CIP_MultiRequest m a N) a 0 sizes = some (items, mF) ∧
      items = (List.range N).map
        (fun i => a + 6 + (2 * (N + 1) + (sizes.take i).sum)) ∧
      ∀ i < N, unpack_UINT mF (a + 8 + 2 * i) =
        2 * (N + 1) + (sizes.take i).sum) ∧
    a + 6 + (2 * (N + 1) + sizes.sum) = a + CIP_MultiRequest_size N sizes.sum ∧
    (∀ i sz, i ≥ N →
      CIP_MultiRequest_item (prepare_CIP_MultiRequest m a N) a i sz = none) ∧
    (∀ j sz, 1 ≤ j → j < N →
      CIP_MultiRequest_item (prepare_CIP_MultiRequest m a N) a j sz = none) := by
  have hok0 := prepare_establishes m a N sizes (by omega) (by omega)
  obtain ⟨hp0, hc0, ho0⟩ := hok0
  refine ⟨?_, ?_, ?_, ?_⟩
  · obtain ⟨items, mF, hrun, hitems, hokF⟩ :=
      run_items_spec sizes (prepare_CIP_MultiRequest m a N) a N 0 sizes hlen
        (by simp) hsum ⟨hp0, hc0, ho0⟩
    refine ⟨items, mF, hrun, ?_, ?_⟩
    · rw [hitems, hlen]
      apply List.map_congr_left
      intro j _
      simp
    · intro i hi
      rw [hokF.2.2 i hi, if_pos (by omega)]
  · rw [CIP_MultiRequest_size_eq]
    omega
  · intro i sz hi
    simp only [CIP_MultiRequest_item, raw_MR_Request_data]
    rw [hp0]
    have e1 : a + 2 + 2 * 2 = a + 6 := by omega
    rw [e1, hc0]
    rw [if_pos hi]
  · intro j sz h1 h2
    simp only [CIP_MultiRequest_item, raw_MR_Request_data]
    rw [hp0]
    have e1 : a + 2 + 2 * 2 = a + 6 := by omega
    rw [e1, hc0]
    rw [if_neg (by omega)]
    have e2 : a + 6 + 2 + 2 * j = a + 8 + 2 * j := by omega
    rw [e2, ho0 j h2]
    have hj0 : ¬ (j ≤ 0) := by omega
    simp only [if_neg hj0]
    simp

/-- Witness for CIP_MultiRequest_offsets with two requests of sizes 3
and 5 at base 0. -/
theorem CIP_MultiRequest_offsets_witness :
    ([3, 5] : List Nat).length = 2 ∧ 2 * (2 + 1) + ([3, 5] : List Nat).sum ≤ 0xFFFF ∧
    ((∃ items mF,
      run_items (prepare_CIP_MultiRequest (fun _ => 0) 0 2) 0 0 [3, 5] =
        some (items, mF) ∧
      items = (List.range 2).map
        (fun i => 0 + 6 + (2 * (2 + 1) + (([3, 5] : List Nat).take i).sum)) ∧
      ∀ i < 2, unpack_UINT mF (0 + 8 + 2 * i) =
        2 * (2 + 1) + (([3, 5] : List Nat).take i).sum) ∧
    0 + 6 + (2 * (2 + 1) + ([3, 5] : List Nat).sum) =
      0 + CIP_MultiRequest_size 2 ([3, 5] : List Nat).sum ∧
    (∀ i sz, i ≥ 2 →
      CIP_MultiRequest_item (prepare_CIP_MultiRequest (fun _ => 0) 0 2) 0 i sz =
        none) ∧
    (∀ j sz, 1 ≤ j → j < 2 →
      CIP_MultiRequest_item (prepare_CIP_MultiRequest (fun _ => 0) 0 2) 0 j sz =
        none)) :=
  ⟨by decide, by decide,
   CIP_MultiRequest_offsets (fun _ => 0) 0 2 [3, 5] (by decide) (by decide)⟩

end EtherIP
